import Mathlib

/-!
Verification of the shared textual type-inference module
(`crates/repl/src/inference.rs`) of a language-tooling suite.

Strings are modelled as lists of characters (`Str`); each definition below
mirrors one function (or one inlined loop) of the source module, keeping its
name where Lean allows.  Byte indices of the source become character indices,
which agree on the ASCII inputs the module manipulates.  Rust `while` loops
whose argument strictly shrinks are rendered with an explicit fuel argument
initialised to the length of the scanned text; since every iteration consumes
at least one character, the fuel never runs out on any reachable call, so the
rendering computes exactly the source's result.
-/

/-- Strings are modelled as lists of characters. -/
abbrev Str := List Char

/-- Build a `Str` from a string literal. -/
def str (s : String) : Str := s.data

/-- Identifier characters: `c.is_alphanumeric() || c == '_'` in the source. -/
def isIdentChar (c : Char) : Bool := c.isAlphanum || c = '_'

/-- `startsWith l p` is Rust's `l.starts_with(p)`. -/
def startsWith : Str → Str → Bool
  | _, [] => true
  | [], _ :: _ => false
  | a :: l, b :: p => a = b && startsWith l p

/-- `endsWith l s` is Rust's `l.ends_with(s)`. -/
def endsWith (l s : Str) : Bool := startsWith l.reverse s.reverse

/-- Drop leading whitespace (the left half of Rust's `str::trim`). -/
def ltrim (l : Str) : Str := l.dropWhile Char.isWhitespace

/-- Drop trailing whitespace (the right half of Rust's `str::trim`). -/
def rtrim (l : Str) : Str := (ltrim l.reverse).reverse

/-- Rust's `str::trim`: whitespace removed from both ends. -/
def trimStr (l : Str) : Str := ltrim (rtrim l)

/-- Index of the first occurrence of `c`, Rust's `l.find(c)`. -/
def findIdxChar : Str → Char → Option Nat
  | [], _ => none
  | a :: l, c => if a = c then some 0 else (findIdxChar l c).map (· + 1)

/-- Index of the last occurrence of `c`, Rust's `l.rfind(c)`. -/
def rfindChar : Str → Char → Option Nat
  | [], _ => none
  | a :: l, c =>
    match rfindChar l c with
    | some i => some (i + 1)
    | none => if a = c then some 0 else none

/-- Rust's `l.contains(c)` for a single character. -/
def containsChar : Str → Char → Bool
  | [], _ => false
  | a :: l, c => if a = c then true else containsChar l c

/-- Number of occurrences of `c`, Rust's `l.matches(c).count()`. -/
def countChar : Str → Char → Nat
  | [], _ => 0
  | a :: l, c => (if a = c then 1 else 0) + countChar l c

/-- Start index of the last occurrence of `pat`, Rust's `hay.rfind(pat)`. -/
def rfindStr (hay pat : Str) : Option Nat :=
  (((List.range (hay.length + 1)).filter fun i => startsWith (hay.drop i) pat).getLast?)

/-- Prefix of `l` before the first occurrence of `c`
(Rust's `l.split(c).next().unwrap_or(l)`). -/
def takeUntilChar (l : Str) (c : Char) : Str := l.takeWhile (· ≠ c)

/-- Rust's `l.split(p)` with all (possibly empty) pieces. -/
def splitPred (p : Char → Bool) : Str → List Str
  | [] => [[]]
  | c :: t =>
    match splitPred p t with
    | h :: r => if p c then [] :: h :: r else (c :: h) :: r
    | [] => if p c then [[], []] else [[c]]

/-- Rust's `l.split(sep)` on a single separator character. -/
def splitChar (l : Str) (sep : Char) : List Str := splitPred (fun c => c = sep) l

/-- Value of a digit string (most significant first). -/
def digitsVal (l : Str) : Nat := l.foldl (fun a c => a * 10 + (c.toNat - '0'.toNat)) 0

/-- Whether `s.parse::<i64>()` succeeds: optional sign, digits, within range. -/
def parses_i64 (s : Str) : Bool :=
  let neg := startsWith s ['-']
  let ds := if startsWith s ['-'] || startsWith s ['+'] then s.drop 1 else s
  ds ≠ [] && ds.all Char.isDigit &&
    (if neg then digitsVal ds ≤ 2 ^ 63 else digitsVal ds < 2 ^ 63)

/-- Whether `s.parse::<f64>()` succeeds: optional sign, then `inf`/`infinity`/`nan`
(case-insensitive) or a mantissa with at least one digit and an optional exponent. -/
def parses_f64 (s : Str) : Bool :=
  let b := if startsWith s ['-'] || startsWith s ['+'] then s.drop 1 else s
  let low := b.map Char.toLower
  if low = str "inf" || low = str "infinity" || low = str "nan" then true
  else
    let intPart := b.takeWhile Char.isDigit
    let rest1 := b.drop intPart.length
    let fracPart :=
      if startsWith rest1 ['.'] then (rest1.drop 1).takeWhile Char.isDigit else []
    let rest2 :=
      if startsWith rest1 ['.'] then (rest1.drop 1).drop fracPart.length else rest1
    if intPart = [] && fracPart = [] then false
    else
      match rest2 with
      | [] => true
      | e :: rest3 =>
        if e = 'e' || e = 'E' then
          let r4 := if startsWith rest3 ['+'] || startsWith rest3 ['-'] then rest3.drop 1 else rest3
          r4 ≠ [] && r4.all Char.isDigit
        else false

/-- Whether `s.parse::<usize>()` succeeds (64-bit). -/
def parses_usize (s : Str) : Bool :=
  let ds := if startsWith s ['+'] then s.drop 1 else s
  ds ≠ [] && ds.all Char.isDigit && digitsVal ds < 2 ^ 64

/-- Numeric value of a parsed `usize` string. -/
def usizeVal (s : Str) : Nat := digitsVal (if startsWith s ['+'] then s.drop 1 else s)

/-- The binding environment: identifier → type label.  The source uses a
`HashMap`; we model it as an association list where the most recent insertion
shadows earlier ones (observationally equal through `bfind`). -/
abbrev Bindings := List (Str × Str)

/-- `HashMap::get`. -/
def bfind : Bindings → Str → Option Str
  | [], _ => none
  | (k', v) :: rest, k => if k' = k then some v else bfind rest k

/-- `HashMap::insert`. -/
def binsert (b : Bindings) (k v : Str) : Bindings := (k, v) :: b

/-- The read-only query surface of the live evaluation engine
(`ReplEngine` in the source), modelled as a record of pure functions. -/
structure ReplEngine where
  get_type_for_constructor : Str → Option Str
  get_types : List Str
  get_function_signature : Str → Option Str
  get_field_type : Str → Str → Option Str
  infer_expression_type : Str → Bindings → Option Str

/-- Scan for the `]` matching an initial run of `[`s: depth counting, returning
the index where the depth first returns to zero (the inlined loop shared by
`detect_literal_type` and `infer_indexed_list_literal_type`). -/
def listEndAux : Str → Int → Nat → Option Nat
  | [], _, _ => none
  | c :: rest, depth, i =>
    if c = '[' then listEndAux rest (depth + 1) (i + 1)
    else if c = ']' then
      if depth - 1 = 0 then some i else listEndAux rest (depth - 1) (i + 1)
    else listEndAux rest depth (i + 1)

/-- Index of the bracket closing the list literal opening at index 0. -/
def listEndIdx (l : Str) : Option Nat := listEndAux l 0 0

/-- `detect_literal_type`: classify a literal expression as
String/List/Map/Set/Int/Float, deferring indexed list literals. -/
def detect_literal_type (expr : Str) : Option Str :=
  let t := trimStr expr
  if startsWith t ['"'] || startsWith t ['\''] then some (str "String")
  else if startsWith t ['['] then
    match listEndIdx t with
    | some endIdx =>
      if startsWith (t.drop (endIdx + 1)) ['['] then none else some (str "List")
    | none => some (str "List")
  else if startsWith t (str "%\x7b") then some (str "Map")
  else if startsWith t (str "#\x7b") then some (str "Set")
  else
    let num := if startsWith t ['-'] then t.drop 1 else t
    if num ≠ [] && (num.headD ' ').isDigit then
      if containsChar num '.' then some (str "Float") else some (str "Int")
    else none

/-- The loop of `extract_first_list_element`: cut at the first depth-zero comma. -/
def firstElemAux : Str → Int → Str
  | [], _ => []
  | c :: rest, depth =>
    if c = '[' ∨ c = '(' ∨ c = '\x7b' then c :: firstElemAux rest (depth + 1)
    else if c = ']' ∨ c = ')' ∨ c = '\x7d' then c :: firstElemAux rest (depth - 1)
    else if c = ',' ∧ depth = 0 then []
    else c :: firstElemAux rest depth

/-- `extract_first_list_element`: first element of a list interior. -/
def extract_first_list_element (inner : Str) : Option Str := some (firstElemAux inner 0)

/-- `infer_list_type`, with fuel for the recursion into the first element
(each recursive call is on a string at least two characters shorter, so fuel
`expr.length` never runs out). -/
def infer_list_type_fuel : Nat → Str → Option Str
  | 0, _ => none
  | fuel + 1, expr =>
    let t := trimStr expr
    if ¬ (startsWith t ['['] ∧ endsWith t [']']) then none else
    let inner := trimStr (t.drop 1).dropLast
    if inner = [] then some (str "List") else
    match extract_first_list_element inner with
    | none => none
    | some fe =>
      let ft := trimStr fe
      if startsWith ft ['['] then
        match infer_list_type_fuel fuel ft with
        | none => none
        | some et => some (str "List[" ++ et ++ str "]")
      else if startsWith ft ['"'] then some (str "List[" ++ str "String" ++ str "]")
      else if parses_i64 ft then some (str "List[" ++ str "Int" ++ str "]")
      else if parses_f64 ft then some (str "List[" ++ str "Float" ++ str "]")
      else if (ft.headD ' ').isUpper then
        let name := ft.takeWhile isIdentChar
        if name ≠ [] then some (str "List[" ++ name ++ str "]") else some (str "List")
      else some (str "List")

/-- `infer_list_type`: type of a (possibly nested) list literal. -/
def infer_list_type (expr : Str) : Option Str := infer_list_type_fuel expr.length expr

/-- The peeling loop of `infer_indexed_list_literal_type`: one `List[` layer per
index; a bare `List` yields nothing, any other non-list label stops the loop
and is returned as is. -/
def peelStop : Str → Nat → Option Str
  | t, 0 => some t
  | t, n + 1 =>
    if startsWith t (str "List[") ∧ endsWith t [']'] then peelStop (t.drop 5).dropLast n
    else if t = str "List" then none
    else some t

/-- `infer_indexed_list_literal_type`: type of a list literal immediately
followed by index suffixes, e.g. `[["a","b"]][0]`. -/
def infer_indexed_list_literal_type (expr : Str) : Option Str :=
  let t := trimStr expr
  if ¬ startsWith t ['['] then none else
  match listEndIdx t with
  | none => none
  | some le =>
    let after := t.drop (le + 1)
    if ¬ startsWith after ['['] then none else
    let n := countChar after '['
    if n = 0 then none else
    match infer_list_type (t.take (le + 1)) with
    | none => none
    | some base => peelStop base n

/-- The top-level comma split shared by `infer_tuple_type` and the tuple branch
of `infer_field_access_type`: depth-aware, pushing each trimmed piece on a
depth-zero comma, and the trimmed remainder if non-empty.  The accumulator
holds the current piece reversed. -/
def stcAux : Str → Int → Str → List Str
  | [], _, cur => if trimStr cur.reverse = [] then [] else [trimStr cur.reverse]
  | c :: rest, depth, cur =>
    if c = '(' ∨ c = '[' ∨ c = '\x7b' then stcAux rest (depth + 1) (c :: cur)
    else if c = ')' ∨ c = ']' ∨ c = '\x7d' then stcAux rest (depth - 1) (c :: cur)
    else if c = ',' ∧ depth = 0 then trimStr cur.reverse :: stcAux rest depth []
    else stcAux rest depth (c :: cur)

/-- Split a tuple interior on top-level commas. -/
def splitTopCommas (inner : Str) : List Str := stcAux inner 0 []

/-- Join type labels with `", "` (the `types.join(", ")` of the source). -/
def joinCommaSpace : List Str → Str
  | [] => []
  | [x] => x
  | x :: r => x ++ str ", " ++ joinCommaSpace r

/-- `infer_tuple_type`, with fuel for the recursion into nested tuple elements
(every element is strictly shorter than the whole expression). -/
def infer_tuple_type_fuel : Nat → Str → Option Str
  | 0, _ => none
  | fuel + 1, expr =>
    let t := trimStr expr
    if ¬ (startsWith t ['('] ∧ endsWith t [')']) then none else
    let inner := trimStr (t.drop 1).dropLast
    if inner = [] then some (str "()") else
    let elems := splitTopCommas inner
    let types := elems.map fun e =>
      if startsWith e ['"'] then str "String"
      else if startsWith e ['['] then (infer_list_type e).getD (str "List")
      else if startsWith e ['('] ∧ containsChar e ',' then
        (infer_tuple_type_fuel fuel e).getD (str "Tuple")
      else if e = str "true" ∨ e = str "false" then str "Bool"
      else if parses_i64 e then str "Int"
      else if parses_f64 e then str "Float"
      else if (e.headD ' ').isUpper then e.takeWhile isIdentChar
      else str "Unknown"
    some ('(' :: joinCommaSpace types ++ [')'])

/-- `infer_tuple_type`: type of a tuple literal, e.g. `(42, "hello")`. -/
def infer_tuple_type (expr : Str) : Option Str := infer_tuple_type_fuel expr.length expr

/-- The base-finding scan of `infer_method_chain_type`: first depth-zero `.`
followed by an alphabetic character. -/
def chainBaseAux : Str → Int → Nat → Option Nat
  | [], _, _ => none
  | c :: rest, depth, i =>
    if c = '[' ∨ c = '(' ∨ c = '\x7b' then chainBaseAux rest (depth + 1) (i + 1)
    else if c = ']' ∨ c = ')' ∨ c = '\x7d' then chainBaseAux rest (depth - 1) (i + 1)
    else if c = '.' ∧ depth = 0 ∧ (rest.headD ' ').isAlpha then some i
    else chainBaseAux rest depth (i + 1)

/-- The closing-parenthesis scan of `infer_method_chain_type`: index where the
parenthesis depth returns to zero. -/
def findCloseAux : Str → Int → Nat → Option Nat
  | [], _, _ => none
  | c :: rest, depth, i =>
    if c = '(' then findCloseAux rest (depth + 1) (i + 1)
    else if c = ')' then
      if depth - 1 = 0 then some i else findCloseAux rest (depth - 1) (i + 1)
    else findCloseAux rest depth (i + 1)

/-- Parse a `List[..]`/`Option[..]` receiver into its base label and element
type (the `(base_type, elem_type)` destructuring of the source). -/
def classifyReceiver (receiver : Str) : Str × Option Str :=
  if startsWith receiver (str "List[") ∧ endsWith receiver [']'] then
    (str "List", some (receiver.drop 5).dropLast)
  else if startsWith receiver (str "Option[") ∧ endsWith receiver [']'] then
    (str "Option", some (receiver.drop 7).dropLast)
  else (receiver, none)

/-- The shape-preserving `List` methods of the static table. -/
def shapePreservingListMethods : List Str :=
  [str "filter", str "take", str "drop", str "reverse", str "sort",
   str "unique", str "takeWhile", str "dropWhile", str "init", str "tail",
   str "push", str "remove", str "removeAt", str "insertAt", str "set",
   str "slice"]

/-- `infer_method_return_type_static`: the static method-return-type table. -/
def infer_method_return_type_static (receiver method : Str) : Option Str :=
  if method = str "show" then some (str "String")
  else if method = str "hash" then some (str "Int")
  else if method = str "copy" then some receiver
  else
    let c := classifyReceiver receiver
    if c.1 = str "List" then
      if method ∈ shapePreservingListMethods then
        match c.2 with
        | some e => some (str "List[" ++ e ++ str "]")
        | none => some (str "List")
      else if method ∈ [str "get", str "head", str "last", str "nth", str "find",
          str "sum", str "product", str "maximum", str "minimum"] then
        c.2
      else if method ∈ [str "any", str "all", str "contains", str "isEmpty"] then
        some (str "Bool")
      else if method ∈ [str "length", str "len", str "count", str "indexOf"] then
        some (str "Int")
      else if method ∈ [str "first", str "safeHead", str "safeLast"] then
        c.2.map fun e => str "Option[" ++ e ++ str "]"
      else if method = str "map" ∨ method = str "flatMap" then some (str "List")
      else if method = str "enumerate" then
        match c.2 with
        | some e => some (str "List[(Int, " ++ e ++ str ")]")
        | none => some (str "List")
      else if method = str "flatten" then
        match c.2 with
        | some e => if startsWith e (str "List[") then some e else some (str "List[" ++ e ++ str "]")
        | none => some (str "List")
      else none
    else if c.1 = str "String" then
      if method = str "chars" then some (str "List[Char]")
      else if method ∈ [str "lines", str "words", str "split"] then some (str "List[String]")
      else if method ∈ [str "trim", str "trimStart", str "trimEnd", str "toUpper",
          str "toLower", str "replace", str "replaceAll", str "substring",
          str "repeat", str "padStart", str "padEnd", str "reverse"] then
        some (str "String")
      else if method ∈ [str "length", str "indexOf", str "lastIndexOf"] then some (str "Int")
      else if method ∈ [str "contains", str "startsWith", str "endsWith", str "isEmpty"] then
        some (str "Bool")
      else none
    else if c.1 = str "Option" then
      if method = str "unwrap" ∨ method = str "getOrElse" then c.2
      else if method = str "isSome" ∨ method = str "isNone" then some (str "Bool")
      else if method = str "map" then some (str "Option")
      else none
    else none

/-- The method-call loop of `infer_method_chain_type`: repeatedly strip a
leading `.method(...)` and apply the static table.  Fuel starts at the length
of `remaining`; each iteration consumes at least two characters. -/
def chainLoop : Nat → Str → Option Str → Option Str
  | 0, _, cur => cur
  | fuel + 1, remaining, cur =>
    if startsWith remaining ['.'] then
      let rem1 := remaining.drop 1
      match findIdxChar rem1 '(' with
      | none => none
      | some pp =>
        let method := rem1.take pp
        match findCloseAux (rem1.drop pp) 0 0 with
        | none => none
        | some cpRel =>
          match cur with
          | none => none
          | some recv =>
            chainLoop fuel (rem1.drop (pp + cpRel + 1))
              (infer_method_return_type_static recv method)
    else cur

/-- `infer_method_chain_type`: type of a chain like `nums.filter(f).head()`. -/
def infer_method_chain_type (expr : Str) (local_vars : Bindings) : Option Str :=
  let t := trimStr expr
  let baseEnd := (chainBaseAux t 0 0).getD 0
  if baseEnd = 0 then
    if startsWith t ['['] then infer_list_type t
    else if startsWith t ['"'] then some (str "String")
    else
      match bfind local_vars t with
      | some ty => some ty
      | none => none
  else
    let baseExpr := t.take baseEnd
    let remaining := t.drop baseEnd
    let cur :=
      if startsWith baseExpr ['['] then infer_list_type baseExpr
      else if startsWith baseExpr ['"'] then some (str "String")
      else bfind local_vars (trimStr baseExpr)
    chainLoop remaining.length remaining cur

/-- The strict peeling loop of `infer_index_expr_type`: one `List[` layer per
counted `[`; both a bare `List` and a non-list label abort with nothing. -/
def peelStrict : Str → Nat → Option Str
  | t, 0 => some t
  | t, n + 1 =>
    if startsWith t (str "List[") ∧ endsWith t [']'] then peelStrict (t.drop 5).dropLast n
    else if t = str "List" then none
    else none

/-- `infer_index_expr_type`: type of `g2[0]` or `g2[0][0]` from the bound type
of `g2`. -/
def infer_index_expr_type (expr : Str) (local_vars : Bindings) : Option Str :=
  let t := trimStr expr
  if ¬ containsChar t '[' then none else
  match findIdxChar t '[' with
  | none => none
  | some fb =>
    let baseVar := trimStr (t.take fb)
    if baseVar = [] then none else
    match bfind local_vars baseVar with
    | none => none
    | some baseType => peelStrict baseType (countChar t '[')

/-- The first-argument scan of `infer_first_arg_type`: stop at a depth-zero
closer (checked before decrementing) or a depth-zero comma. -/
def ifatScan : Str → Int → Nat → Option Nat
  | [], _, _ => none
  | c :: rest, depth, i =>
    if c = '(' ∨ c = '[' ∨ c = '\x7b' then ifatScan rest (depth + 1) (i + 1)
    else if c = ')' ∨ c = ']' ∨ c = '\x7d' then
      if depth = 0 then some i else ifatScan rest (depth - 1) (i + 1)
    else if c = ',' ∧ depth = 0 then some i
    else ifatScan rest depth (i + 1)

/-- `infer_first_arg_type`: type of the first argument of a call `(args...)`. -/
def infer_first_arg_type (args : Str) (bindings : Bindings) : Option Str :=
  let t := trimStr args
  if ¬ startsWith t ['('] then none else
  let inner := t.drop 1
  let e0 := (ifatScan inner 0 0).getD 0
  let endPos := if e0 = 0 then (findIdxChar inner ')').getD inner.length else e0
  let firstArg := trimStr (inner.take endPos)
  if firstArg = [] then none
  else if firstArg.all (fun c => c.isDigit || c = '-') then some (str "Int")
  else if containsChar firstArg '.' ∧ firstArg.all (fun c => c.isDigit || c = '.' || c = '-') then
    some (str "Float")
  else if startsWith firstArg ['"'] then some (str "String")
  else if startsWith firstArg ['['] then infer_list_type firstArg
  else bfind bindings firstArg

/-- The unqualified tail of a dotted type name
(`registered_type.rsplit('.').next()` in the source). -/
def lastDotComponent (l : Str) : Str :=
  match rfindChar l '.' with
  | some i => l.drop (i + 1)
  | none => l

/-- `infer_rhs_type`: the central dispatcher for the type of a binding's
right-hand side, trying method chains, index expressions, literals,
record/variant construction, numeric literals, and function-call return types
in the source's order. -/
def infer_rhs_type (expr : Str) (engine : Option ReplEngine) (bindings : Bindings) :
    Option Str :=
  let t := trimStr expr
  let r1 := if containsChar t '.' ∧ containsChar t '(' then
    infer_method_chain_type t bindings else none
  match r1 with
  | some x => some x
  | none =>
  let r2 := if containsChar t '[' ∧ ¬ startsWith t ['['] then
    infer_index_expr_type t bindings else none
  match r2 with
  | some x => some x
  | none =>
  if startsWith t ['['] then
    match infer_indexed_list_literal_type t with
    | some x => some x
    | none => infer_list_type t
  else if startsWith t ['"'] then some (str "String")
  else if startsWith t (str "%\x7b") then some (str "Map")
  else if startsWith t (str "#\x7b") then some (str "Set")
  else
  let r7 := if startsWith t ['('] ∧ endsWith t [')'] ∧ containsChar t ',' then
    infer_tuple_type t else none
  match r7 with
  | some x => some x
  | none =>
  let r8 : Option Str :=
    if (t.headD ' ').isUpper then
      let name := t.takeWhile isIdentChar
      if name ≠ [] then
        let rest := ltrim (t.drop name.length)
        let isConstruction := startsWith rest ['(']
        match engine with
        | some eng =>
          (match eng.get_type_for_constructor name with
          | some tn => some tn
          | none =>
            if name ∈ eng.get_types then some name
            else
              match eng.get_types.find? (fun rt => lastDotComponent rt = name) with
              | some rt => some rt
              | none => if isConstruction then some name else none)
        | none => if isConstruction then some name else none
      else none
    else none
  match r8 with
  | some x => some x
  | none =>
  if t ≠ [] ∧ t.all (fun c => c.isDigit || c = '-') then some (str "Int")
  else if containsChar t '.' ∧ t.all (fun c => c.isDigit || c = '.' || c = '-') then
    some (str "Float")
  else
    match findIdxChar t '(' with
    | none => none
    | some pp =>
      let funcPart := trimStr (t.take pp)
      let argsPart := t.drop pp
      match engine with
      | none => none
      | some eng =>
        match eng.get_function_signature funcPart with
        | none => none
        | some sig =>
          match rfindStr sig (str "->") with
          | none => none
          | some ap =>
            let retType := trimStr (sig.drop (ap + 2))
            if retType.length = 1 ∧ (retType.headD ' ').isLower then
              match infer_first_arg_type argsPart bindings with
              | some fat => some fat
              | none => some retType
            else some retType

/-- Rust's `str::lines` (without `\r` handling, which no input here uses):
split on `\n`, with no empty trailing line. -/
def splitNl : Str → List Str
  | [] => [[]]
  | c :: rest =>
    match splitNl rest with
    | h :: r => if c = '\n' then [] :: h :: r else (c :: h) :: r
    | [] => if c = '\n' then [[], []] else [[c]]

/-- The lines of a document, as Rust's `content.lines()`. -/
def linesOf (content : Str) : List Str :=
  if content = [] then []
  else if endsWith content ['\n'] then (splitNl content).dropLast
  else splitNl content

/-- State threaded through the line scan of `extract_local_bindings`:
the bindings found so far and the current trait-implementation type. -/
structure ScanState where
  bindings : Bindings
  implType : Option Str
deriving DecidableEq

/-- The trait-implementation-header test of `extract_local_bindings`: a line
`TypeName: TraitName` (no `=`) sets the implementation context. -/
def traitHeaderType (trimmed : Str) : Option Str :=
  if containsChar trimmed '=' then none else
  match findIdxChar trimmed ':' with
  | none => none
  | some cp =>
    let before := trimStr (trimmed.take cp)
    let after := trimStr (trimmed.drop (cp + 1))
    let typeName := trimStr (takeUntilChar before '[')
    if typeName ≠ [] ∧ (typeName.headD ' ').isUpper ∧ after ≠ [] ∧
        (after.headD ' ').isUpper ∧
        after.all (fun c => c.isAlphanum || c = '_' || c = '[' || c = ']' || c = ',') then
      some before
    else none

/-- The `self`-parameter detection of `extract_local_bindings`: inside a trait
implementation, a parenthesised parameter list whose first parameter is `self`
binds `self` to the implementation type. -/
def selfStep (st : ScanState) (trimmed : Str) : Bindings :=
  match st.implType with
  | none => st.bindings
  | some impl =>
    match findIdxChar trimmed '(' with
    | none => st.bindings
    | some pp =>
      let afterParen := trimmed.drop (pp + 1)
      match findIdxChar afterParen ')' with
      | none => st.bindings
      | some pe =>
        let params := afterParen.take pe
        let firstParam := trimStr (takeUntilChar params ',')
        if firstParam = str "self" then binsert st.bindings (str "self") impl
        else st.bindings

/-- The `mvar name: Type = expr` branch of `extract_local_bindings`. -/
def mvarStep (b : Bindings) (trimmed : Str) : Bindings :=
  let rest := trimStr (trimmed.drop 5)
  match findIdxChar rest ':' with
  | none => b
  | some cp =>
    let varName := trimStr (rest.take cp)
    let afterColon := trimStr (rest.drop (cp + 1))
    match findIdxChar afterColon '=' with
    | none => b
    | some ep =>
      let typeName := trimStr (afterColon.take ep)
      if varName ≠ [] ∧ typeName ≠ [] then binsert b varName typeName else b

/-- The simple-binding branch of `extract_local_bindings`: `x = expr` or
`x: Type = expr`, with an explicit annotation used verbatim and the
right-hand side inferred otherwise. -/
def assignStep (engine : Option ReplEngine) (b : Bindings) (trimmed : Str) : Bindings :=
  match findIdxChar trimmed '=' with
  | none => b
  | some ep =>
    let beforeEq := trimStr (trimmed.take ep)
    if ep + 1 < trimmed.length ∧ ¬ startsWith (trimmed.drop (ep + 1)) ['='] then
      let afterEq := trimStr (trimmed.drop (ep + 1))
      let p :=
        match findIdxChar beforeEq ':' with
        | some cp => (trimStr (beforeEq.take cp), some (trimStr (beforeEq.drop (cp + 1))))
        | none => (beforeEq, (none : Option Str))
      if p.1 ≠ [] ∧ (p.1.headD ' ').isLower ∧ p.1.all isIdentChar then
        match (match p.2 with
               | some ty => some ty
               | none => infer_rhs_type afterEq engine b) with
        | some ty => binsert b p.1 ty
        | none => b
      else b
    else b

/-- One iteration of the line loop of `extract_local_bindings`. -/
def processLine (engine : Option ReplEngine) (st : ScanState) (line : Str)
    (isCurrent : Bool) : ScanState :=
  let trimmed := trimStr line
  if trimmed = [] ∨ startsWith trimmed ['#'] then st else
  if ¬ containsChar trimmed '=' ∧ trimmed = str "end" then ⟨st.bindings, none⟩ else
  match traitHeaderType trimmed with
  | some ty => ⟨st.bindings, some ty⟩
  | none =>
    let b1 := selfStep st trimmed
    if isCurrent then ⟨b1, st.implType⟩
    else if startsWith trimmed (str "mvar ") then ⟨mvarStep b1 trimmed, st.implType⟩
    else ⟨assignStep engine b1 trimmed, st.implType⟩

/-- The enumerated line loop of `extract_local_bindings` (stops after the
target line). -/
def elbGo (engine : Option ReplEngine) : List Str → Nat → Nat → ScanState → Bindings
  | [], _, _, st => st.bindings
  | l :: rest, i, upTo, st =>
    if i > upTo then st.bindings
    else elbGo engine rest (i + 1) upTo (processLine engine st l (i = upTo))

/-- `extract_local_bindings`: scan the document up to (and including) the
target line and collect variable bindings with their inferred types. -/
def extract_local_bindings (content : Str) (upTo : Nat) (engine : Option ReplEngine) :
    Bindings :=
  elbGo engine (linesOf content) 0 upTo ⟨[], none⟩

/-- The depth-tracked top-level comma scan of the `Result` block of
`infer_lambda_param_type_for_method`. -/
def topCommaAux : Str → Int → Nat → Option Nat
  | [], _, _ => none
  | c :: rest, depth, i =>
    if c = '[' ∨ c = '(' ∨ c = '\x7b' then topCommaAux rest (depth + 1) (i + 1)
    else if c = ']' ∨ c = ')' ∨ c = '\x7d' then topCommaAux rest (depth - 1) (i + 1)
    else if c = ',' ∧ depth = 0 then some i
    else topCommaAux rest depth (i + 1)

/-- The `Set` block of `infer_lambda_param_type_for_method`. -/
def lpSet (receiver method : Str) : Option Str :=
  if startsWith receiver (str "Set") ∨ receiver = str "Set" then
    match (if startsWith receiver (str "Set[") then
             (if endsWith receiver [']'] then some (receiver.drop 4).dropLast else none)
           else some (str "a")) with
    | none => none
    | some elementType =>
      if method ∈ [str "map", str "filter", str "each", str "any", str "all"] then
        some elementType
      else none
  else none

/-- The `Map` block of `infer_lambda_param_type_for_method`. -/
def lpMap (receiver method : Str) : Option Str :=
  if startsWith receiver (str "Map") ∨ receiver = str "Map" then
    if method ∈ [str "map", str "filter", str "each"] then some (str "(k, v)")
    else lpSet receiver method
  else lpSet receiver method

/-- The `Result` block of `infer_lambda_param_type_for_method`. -/
def lpResult (receiver method : Str) : Option Str :=
  if startsWith receiver (str "Result") ∨ receiver = str "Result" then
    let p :=
      if startsWith receiver (str "Result[") ∧ endsWith receiver [']'] then
        let inner := (receiver.drop 7).dropLast
        match topCommaAux inner 0 0 with
        | some pos => (trimStr (inner.take pos), trimStr (inner.drop (pos + 1)))
        | none => (str "a", str "e")
      else (str "a", str "e")
    if method = str "map" then some p.1
    else if method = str "mapErr" then some p.2
    else lpMap receiver method
  else lpMap receiver method

/-- The `Option` block of `infer_lambda_param_type_for_method`. -/
def lpOption (receiver method : Str) : Option Str :=
  if startsWith receiver (str "Option") ∨ receiver = str "Option" then
    let innerType :=
      if startsWith receiver (str "Option[") ∧ endsWith receiver [']'] then
        (receiver.drop 7).dropLast
      else if startsWith receiver (str "Option ") then receiver.drop 7
      else str "a"
    if method ∈ [str "map", str "flatMap", str "filter"] then some innerType
    else lpResult receiver method
  else lpResult receiver method

/-- The element-yielding `List` methods of the lambda-parameter table (the
three source match groups `map ..`/`fold ..`/`zipWith` all return the element
type). -/
def listElementMethods : List Str :=
  [str "map", str "filter", str "each", str "any", str "all", str "find",
   str "takeWhile", str "dropWhile", str "partition", str "span", str "sortBy",
   str "groupBy", str "count", str "fold", str "foldl", str "foldr",
   str "zipWith"]

/-- `infer_lambda_param_type_for_method`: element type of a lambda parameter
from the receiver type and the method name (e.g. `List[Int].map` → `Int`).
The container blocks run in the source's order, each falling through to the
next when its gate or method match fails. -/
def infer_lambda_param_type_for_method (receiver method : Str) : Option Str :=
  if startsWith receiver (str "List") ∨ startsWith receiver ['['] ∨ receiver = str "List" then
    match (if startsWith receiver (str "List[") then
             (if endsWith receiver [']'] then some (receiver.drop 5).dropLast else none)
           else if startsWith receiver ['['] ∧ endsWith receiver [']'] then
             some (receiver.drop 1).dropLast
           else some (str "Int")) with
    | none => none
    | some elementType =>
      if method ∈ listElementMethods then
        some elementType
      else lpOption receiver method
  else lpOption receiver method

/-- `extract_type_fields_from_source`: the textual fallback scan for a
`type Name = { field: Type, ... }` declaration. -/
def etffsGo : List Str → Str → List Str
  | [], _ => []
  | line :: rest, tyName =>
    let t := trimStr line
    if startsWith t (str "type ") then
      let r := trimStr (t.drop 5)
      let defName := trimStr (r.takeWhile fun c => ¬ (c = '=' ∨ c = '['))
      if defName = tyName then
        match findIdxChar t '\x7b' with
        | some bs =>
          let afterBrace := t.drop (bs + 1)
          match findIdxChar afterBrace '\x7d' with
          | some be =>
            ((splitChar (afterBrace.take be) ',').map trimStr).filter (· ≠ [])
          | none => etffsGo rest tyName
        | none => etffsGo rest tyName
      else etffsGo rest tyName
    else etffsGo rest tyName

/-- `extract_type_fields_from_source` over a whole document. -/
def extract_type_fields_from_source (content : Str) (tyName : Str) : List Str :=
  etffsGo (linesOf content) tyName

/-- `infer_field_access_type`: type of a field access such as `self.age`,
via tuple indexing, the engine, or the source-text fallback. -/
def infer_field_access_type (before_dot field_name : Str) (local_vars : Bindings)
    (engine : ReplEngine) (document_content : Str) : Option Str :=
  match rfindStr before_dot ('.' :: field_name) with
  | none => none
  | some fieldStart =>
    let beforeField := before_dot.take fieldStart
    match ((splitPred (fun c => ¬ isIdentChar c) beforeField).filter (· ≠ [])).getLast? with
    | none => none
    | some baseVar =>
      match bfind local_vars baseVar with
      | none => none
      | some baseType =>
        let tupleHit : Option Str :=
          if startsWith baseType ['('] ∧ endsWith baseType [')'] ∧ parses_usize field_name then
            let elems := splitTopCommas (baseType.drop 1).dropLast
            if usizeVal field_name < elems.length then
              some (elems.getD (usizeVal field_name) [])
            else none
          else none
        match tupleHit with
        | some e => some e
        | none =>
          match engine.get_field_type baseType field_name with
          | some ft => some ft
          | none =>
            let fields := extract_type_fields_from_source document_content baseType
            (fields.filterMap fun f =>
              match findIdxChar f ':' with
              | some cp =>
                if trimStr (f.take cp) = field_name then some (trimStr (f.drop (cp + 1)))
                else none
              | none => none).head?

/-- Walk back over whitespace (the `param_end` loop of
`extract_lambda_params_to_local_vars`). -/
def skipWsBack (chars : Str) : Nat → Nat
  | 0 => 0
  | i + 1 => if (chars.getD i ' ').isWhitespace then skipWsBack chars i else i + 1

/-- Walk back over identifier characters (the `param_start` loop). -/
def skipIdBack (chars : Str) : Nat → Nat
  | 0 => 0
  | i + 1 => if isIdentChar (chars.getD i ' ') then skipIdBack chars i else i + 1

/-- Walk back to just after the nearest `(` (the `paren_pos` loop). -/
def findParenBack (chars : Str) : Nat → Nat
  | 0 => 0
  | i + 1 => if chars.getD i ' ' = '(' then i + 1 else findParenBack chars i

/-- Handle one `=>` arrow for `extract_lambda_params_to_local_vars`. -/
def elpArrow (chars : Str) (arrowPos : Nat) (vars : Bindings) : Bindings :=
  let paramEnd := skipWsBack chars arrowPos
  let paramStart := skipIdBack chars paramEnd
  if paramStart < paramEnd then
    let paramName := (chars.take paramEnd).drop paramStart
    if bfind vars paramName = none then
      let parenPos := findParenBack chars paramStart
      if parenPos > 0 then
        let beforeParen := rtrim (chars.take (parenPos - 1))
        match rfindChar beforeParen '.' with
        | none => vars
        | some dp =>
          let methodName := trimStr (beforeParen.drop (dp + 1))
          let recv0 := trimStr (beforeParen.take dp)
          let receiverExpr :=
            match rfindStr recv0 (str "=>") with
            | some ai => trimStr (recv0.drop (ai + 2))
            | none => recv0
          match infer_method_chain_type receiverExpr vars with
          | none => vars
          | some receiverType =>
            match infer_lambda_param_type_for_method receiverType methodName with
            | none => vars
            | some paramType => binsert vars paramName paramType
      else vars
    else vars
  else vars

/-- The forward `=>`-scan loop of `extract_lambda_params_to_local_vars`
(fuel = number of characters left to scan; the position advances by one or two
each round). -/
def elpGo (chars : Str) : Nat → Nat → Bindings → Bindings
  | 0, _, vars => vars
  | fuel + 1, pos, vars =>
    if pos < chars.length then
      if pos + 1 < chars.length ∧ chars.getD pos ' ' = '=' ∧ chars.getD (pos + 1) ' ' = '>' then
        elpGo chars fuel (pos + 2) (elpArrow chars pos vars)
      else elpGo chars fuel (pos + 1) vars
    else vars

/-- `extract_lambda_params_to_local_vars`: add every visible lambda parameter
of the prefix to the environment. -/
def extract_lambda_params_to_local_vars (pre : Str) (local_vars : Bindings) : Bindings :=
  elpGo pre pre.length 0 local_vars

/-- The backward scan of `infer_lambda_param_type_recursive` for the nearest
enclosing unmatched `(`: input is the reversed prefix, the result counts
characters from the end. -/
def lprParenAux : Str → Int → Nat → Option Nat
  | [], _, _ => none
  | c :: rest, depth, i =>
    if c = ')' ∨ c = ']' ∨ c = '\x7d' then lprParenAux rest (depth + 1) (i + 1)
    else if c = '(' then
      if depth = 0 then some i else lprParenAux rest (depth - 1) (i + 1)
    else if c = '[' ∨ c = '\x7b' then lprParenAux rest (max (depth - 1) 0) (i + 1)
    else lprParenAux rest depth (i + 1)

/-- `infer_lambda_param_type_recursive`: single-shot lambda-parameter
resolution, bounded at recursion depth 5. -/
def infer_lambda_param_type_recursive (full_pre before_dot : Str)
    (local_vars : Bindings) (depth : Nat) : Option Str :=
  if depth > 5 then none else
  match ((splitPred (fun c => ¬ isIdentChar c) before_dot).filter (· ≠ [])).getLast? with
  | none => none
  | some paramName =>
    let arrowPos :=
      match rfindStr full_pre (paramName ++ str " =>") with
      | some p => some p
      | none =>
        match rfindStr full_pre (paramName ++ str "=>") with
        | some p => some p
        | none =>
          match rfindStr full_pre (paramName ++ str " =") with
          | some p => some p
          | none => rfindStr full_pre (paramName ++ str "=")
    match arrowPos with
    | none => none
    | some ap =>
      let beforeLambda := full_pre.take ap
      match lprParenAux beforeLambda.reverse 0 0 with
      | none => none
      | some i =>
        let parenPos := beforeLambda.length - i - 1
        let beforeParen := trimStr (beforeLambda.take parenPos)
        match rfindChar beforeParen '.' with
        | none => none
        | some dp =>
          let methodName := trimStr (beforeParen.drop (dp + 1))
          let receiverExpr := trimStr (beforeParen.take dp)
          match infer_method_chain_type receiverExpr local_vars with
          | none => none
          | some receiverType =>
            infer_lambda_param_type_for_method receiverType methodName

/-- `infer_lambda_param_type`: public wrapper at depth 0. -/
def infer_lambda_param_type (full_pre before_dot : Str) (local_vars : Bindings) :
    Option Str :=
  infer_lambda_param_type_recursive full_pre before_dot local_vars 0

/-- The number of consecutive backslashes immediately before index `j`
(the escape-counting loop of `extract_receiver_expression`). -/
def countBackslashes (chars : Str) : Nat → Nat
  | 0 => 0
  | j + 1 => if chars.getD j ' ' = '\\' then countBackslashes chars j + 1 else 0

/-- The backward scan of `extract_receiver_expression`: `none` means the scan
exhausted the input, `some k` that the receiver is the suffix from index `k`. -/
def eraGo (chars : Str) : Nat → Int → Bool → Char → Option Nat
  | 0, _, _, _ => none
  | i + 1, depth, inString, stringChar =>
    let c := chars.getD i ' '
    if inString then
      if c = stringChar ∧ countBackslashes chars i % 2 = 0 then
        eraGo chars i depth false stringChar
      else eraGo chars i depth inString stringChar
    else if c = '"' ∨ c = '\'' then eraGo chars i depth true c
    else if c = ')' ∨ c = ']' ∨ c = '\x7d' then eraGo chars i (depth + 1) inString stringChar
    else if c = '(' ∨ c = '[' ∨ c = '\x7b' then
      if depth > 0 then eraGo chars i (depth - 1) inString stringChar else some i
    else if depth = 0 ∧ ¬ (c.isAlphanum ∨ c = '_' ∨ c = '.') then some (i + 1)
    else eraGo chars i depth inString stringChar

/-- `extract_receiver_expression`: the maximal receiver expression ending at
the cursor, honouring nested brackets and quoted strings. -/
def extract_receiver_expression (text : Str) : Str :=
  match eraGo text text.length 0 false '"' with
  | none => text
  | some k => text.drop k

/-- The assignment-stripping step at the top of `infer_dot_receiver_type`
(source lines 36–47): if the prefix contains an `=` that is not part of
`!=`, `==`, `<=` or `>=`, only the trimmed text after the last `=` is
inferred. -/
def exprToInfer (before_dot : Str) : Str :=
  match rfindChar before_dot '=' with
  | none => before_dot
  | some eqPos =>
    let beforeEq := before_dot.take eqPos
    if ¬ endsWith beforeEq ['!'] ∧ ¬ endsWith beforeEq ['='] ∧
        ¬ endsWith beforeEq ['<'] ∧ ¬ endsWith beforeEq ['>'] then
      trimStr (before_dot.drop (eqPos + 1))
    else before_dot

/-- `infer_dot_receiver_type`: the single entry point for dot-completion type
inference, combining local bindings, lambda parameters, literals, field
access, indexing, the dispatcher and the engine fallback. -/
def infer_dot_receiver_type (content : Str) (cursor_line : Nat) (before_dot : Str)
    (engine : Option ReplEngine) : Option Str :=
  let local0 := extract_local_bindings content cursor_line engine
  let local_vars := extract_lambda_params_to_local_vars before_dot local0
  let expr := exprToInfer before_dot
  let receiverExpr := extract_receiver_expression expr
  let identifier :=
    ((splitPred (fun c => ¬ isIdentChar c) before_dot).getLast?).getD []
  match detect_literal_type receiverExpr with
  | some lt => some lt
  | none =>
  match bfind local_vars identifier with
  | some ty => some ty
  | none =>
  let fieldHit :=
    match engine with
    | some eng => infer_field_access_type before_dot identifier local_vars eng content
    | none => none
  match fieldHit with
  | some ft => some ft
  | none =>
  match infer_indexed_list_literal_type expr with
  | some t => some t
  | none =>
  match infer_index_expr_type expr local_vars with
  | some t => some t
  | none =>
  match infer_rhs_type expr engine local_vars with
  | some t => some t
  | none =>
  match engine with
  | some eng => eng.infer_expression_type expr local_vars
  | none => none

/-- An engine that answers every query negatively (a live session with no
declared types, constructors or functions). -/
def emptyEngine : ReplEngine :=
  ⟨fun _ => none, [], fun _ => none, fun _ _ => none, fun _ _ => none⟩

/-- An engine exposing two function signatures: `foo : a -> a` (generic
placeholder return) and `bar : List[Int] -> Int` (concrete return). -/
def sigEngine : ReplEngine :=
  ⟨fun _ => none, [],
   fun f =>
     if f = str "foo" then some (str "a -> a")
     else if f = str "bar" then some (str "List[Int] -> Int")
     else none,
   fun _ _ => none, fun _ _ => none⟩

-- sanity checks on concrete literals
example : infer_list_type (str "[1,2,3]") = some (str "List[Int]") := by decide
example : infer_list_type (str "[[1,2],[3,4]]") = some (str "List[List[Int]]") := by decide
example : infer_list_type (str "[]") = some (str "List") := by decide
example : detect_literal_type (str "3.14") = some (str "Float") := by decide
example : infer_indexed_list_literal_type (str "[[1]][0]") = some (str "List[Int]") := by decide
example : infer_tuple_type (str "(42, \"hello\")") = some (str "(Int, String)") := by decide
example : infer_tuple_type (str "(true, 1, 3.14)") = some (str "(Bool, Int, Float)") := by decide
example :
    infer_method_chain_type (str "nums.filter(x)") [(str "nums", str "List[Int]")] =
      some (str "List[Int]") := by decide
example : infer_index_expr_type (str "g2[0][0]") [(str "g2", str "List[List[String]]")] =
      some (str "String") := by decide
example :
    bfind (extract_local_bindings (str "x = 42\ny = \"hello\"") 10 none) (str "x") =
      some (str "Int") := by decide
example :
    bfind (extract_local_bindings (str "x = 42\ny = \"hello\"") 10 none) (str "y") =
      some (str "String") := by decide
example :
    bfind (extract_local_bindings (str "x: Int = 42\ny: String = \"hello\"") 10 none)
      (str "y") = some (str "String") := by decide
example : infer_lambda_param_type_for_method (str "List[Int]") (str "map") =
      some (str "Int") := by decide
example : infer_lambda_param_type_for_method (str "List[String]") (str "filter") =
      some (str "String") := by decide
example : infer_lambda_param_type_for_method (str "Option[Int]") (str "map") =
      some (str "Int") := by decide
example : infer_method_return_type_static (str "List[Int]") (str "head") =
      some (str "Int") := by decide
example : infer_method_return_type_static (str "String") (str "chars") =
      some (str "List[Char]") := by decide
example : extract_receiver_expression (str "x") = str "x" := by decide
example : extract_receiver_expression (str "[1,2,3]") = str "[1,2,3]" := by decide
example : extract_receiver_expression (str "a + [1,2,3]") = str "[1,2,3]" := by decide
example : exprToInfer (str "z = [1].") = str "[1]." := by decide

/-! ### General lemmas about the character-list primitives -/

theorem startsWith_nil (l : Str) : startsWith l [] = true := by
  cases l <;> rfl

theorem startsWith_append_self (p r : Str) : startsWith (p ++ r) p = true := by
  induction p with
  | nil => exact startsWith_nil r
  | cons a p ih => simp [startsWith, ih]

theorem endsWith_append_self (r s : Str) : endsWith (r ++ s) s = true := by
  unfold endsWith
  rw [List.reverse_append]
  exact startsWith_append_self s.reverse r.reverse

theorem startsWith_single {l : Str} {c : Char} (h : startsWith l [c] = true) :
    ∃ t, l = c :: t := by
  cases l with
  | nil => cases h
  | cons a t =>
    have : a = c := by simpa [startsWith] using h
    exact ⟨t, by rw [this]⟩

theorem isIdentChar_not_ws {c : Char} (h : isIdentChar c = true) :
    c.isWhitespace = false := by
  cases hw : c.isWhitespace with
  | false => rfl
  | true =>
    exfalso
    have : ((c = ' ' ∨ c = '\t') ∨ c = '\r') ∨ c = '\n' := by
      simpa [Char.isWhitespace] using hw
    rcases this with ((rfl | rfl) | rfl) | rfl <;> exact absurd h (by decide)

theorem all_ne_of_ident {l : Str} (h : ∀ c ∈ l, isIdentChar c = true) {d : Char}
    (hd : isIdentChar d = false) : ∀ x ∈ l, x ≠ d := by
  intro x hx he
  subst he
  rw [h x hx] at hd
  cases hd

theorem ltrim_cons_of_not_ws {c : Char} {l : Str} (h : c.isWhitespace = false) :
    ltrim (c :: l) = c :: l := by
  simp [ltrim, List.dropWhile_cons, h]

theorem ltrim_eq_self {l : Str} (h : ∀ c ∈ l, c.isWhitespace = false) : ltrim l = l := by
  cases l with
  | nil => rfl
  | cons a t => exact ltrim_cons_of_not_ws (h a (List.mem_cons_self a t))

theorem rtrim_eq_self {l : Str} (h : ∀ c ∈ l, c.isWhitespace = false) : rtrim l = l := by
  unfold rtrim
  rw [ltrim_eq_self fun c hc => h c (List.mem_reverse.mp hc), List.reverse_reverse]

theorem trimStr_eq_self {l : Str} (h : ∀ c ∈ l, c.isWhitespace = false) : trimStr l = l := by
  unfold trimStr
  rw [rtrim_eq_self h, ltrim_eq_self h]

theorem trimStr_ident {l : Str} (h : ∀ c ∈ l, isIdentChar c = true) : trimStr l = l :=
  trimStr_eq_self fun c hc => isIdentChar_not_ws (h c hc)

theorem ltrim_eq_nil_iff {l : Str} : ltrim l = [] ↔ ∀ c ∈ l, c.isWhitespace = true := by
  simp [ltrim, List.dropWhile_eq_nil_iff]

theorem rtrim_eq_nil_iff {l : Str} : rtrim l = [] ↔ ∀ c ∈ l, c.isWhitespace = true := by
  unfold rtrim
  rw [List.reverse_eq_nil_iff, ltrim_eq_nil_iff]
  constructor
  · intro h c hc
    exact h c (List.mem_reverse.mpr hc)
  · intro h c hc
    exact h c (List.mem_reverse.mp hc)

theorem rtrim_append {l₁ l₂ : Str} (h : rtrim l₂ ≠ []) : rtrim (l₁ ++ l₂) = l₁ ++ rtrim l₂ := by
  have h2 : (l₂.reverse.dropWhile Char.isWhitespace).isEmpty = false := by
    cases he : l₂.reverse.dropWhile Char.isWhitespace with
    | nil => exact absurd (by simp [rtrim, ltrim, he]) h
    | cons a t => rfl
  unfold rtrim ltrim
  rw [List.reverse_append, List.dropWhile_append, if_neg (by simp [h2]),
    List.reverse_append, List.reverse_reverse]

theorem findIdxChar_eq_none {l : Str} {c : Char} (h : ∀ x ∈ l, x ≠ c) :
    findIdxChar l c = none := by
  induction l with
  | nil => rfl
  | cons a t ih =>
    unfold findIdxChar
    rw [if_neg (h a (List.mem_cons_self a t)),
      ih fun x hx => h x (List.mem_cons_of_mem a hx)]
    rfl

theorem findIdxChar_append_first {l₁ l₂ : Str} {c : Char} (h : ∀ x ∈ l₁, x ≠ c) :
    findIdxChar (l₁ ++ c :: l₂) c = some l₁.length := by
  induction l₁ with
  | nil => simp [findIdxChar]
  | cons a t ih =>
    rw [List.cons_append]
    unfold findIdxChar
    rw [if_neg (h a (List.mem_cons_self a t)),
      ih fun x hx => h x (List.mem_cons_of_mem a hx)]
    simp

theorem rfindChar_eq_none {l : Str} {c : Char} (h : ∀ x ∈ l, x ≠ c) :
    rfindChar l c = none := by
  induction l with
  | nil => rfl
  | cons a t ih =>
    unfold rfindChar
    rw [ih fun x hx => h x (List.mem_cons_of_mem a hx)]
    simp [h a (List.mem_cons_self a t)]

theorem rfindChar_append_last {l₁ l₂ : Str} {c : Char} (h : ∀ x ∈ l₂, x ≠ c) :
    rfindChar (l₁ ++ c :: l₂) c = some l₁.length := by
  induction l₁ with
  | nil =>
    rw [List.nil_append]
    simp only [rfindChar, rfindChar_eq_none h]
    simp
  | cons a t ih =>
    rw [List.cons_append]
    simp only [rfindChar, ih]
    simp

theorem containsChar_eq_false {l : Str} {c : Char} (h : ∀ x ∈ l, x ≠ c) :
    containsChar l c = false := by
  induction l with
  | nil => rfl
  | cons a t ih =>
    simp only [containsChar]
    rw [if_neg (h a (List.mem_cons_self a t))]
    exact ih fun x hx => h x (List.mem_cons_of_mem a hx)

theorem containsChar_append (l₁ l₂ : Str) (c : Char) :
    containsChar (l₁ ++ l₂) c = (containsChar l₁ c || containsChar l₂ c) := by
  induction l₁ with
  | nil => rfl
  | cons a t ih =>
    rw [List.cons_append]
    simp only [containsChar]
    by_cases hac : a = c
    · rw [if_pos hac, if_pos hac]
      rfl
    · rw [if_neg hac, if_neg hac, ih]

theorem countChar_append (l₁ l₂ : Str) (c : Char) :
    countChar (l₁ ++ l₂) c = countChar l₁ c + countChar l₂ c := by
  induction l₁ with
  | nil => simp [countChar]
  | cons a t ih =>
    rw [List.cons_append]
    simp only [countChar]
    rw [ih]
    omega

theorem countChar_eq_zero {l : Str} {c : Char} (h : ∀ x ∈ l, x ≠ c) :
    countChar l c = 0 := by
  induction l with
  | nil => rfl
  | cons a t ih =>
    simp only [countChar]
    rw [if_neg (h a (List.mem_cons_self a t)),
      ih fun x hx => h x (List.mem_cons_of_mem a hx)]

theorem takeWhile_all {p : Char → Bool} {l : Str} (h : ∀ c ∈ l, p c = true) :
    l.takeWhile p = l := by
  induction l with
  | nil => rfl
  | cons a t ih =>
    rw [List.takeWhile_cons, if_pos (h a (List.mem_cons_self a t)),
      ih fun c hc => h c (List.mem_cons_of_mem a hc)]

theorem takeWhile_append_stop {p : Char → Bool} {l₁ : Str} {b : Char} {t : Str}
    (h : ∀ c ∈ l₁, p c = true) (hb : p b = false) :
    (l₁ ++ b :: t).takeWhile p = l₁ := by
  rw [List.takeWhile_append_of_pos h, List.takeWhile_cons, if_neg (by simp [hb])]
  simp

theorem trimStr_append_ident {v s : Str} (hv : v ≠ [])
    (hident : ∀ c ∈ v, isIdentChar c = true) (hrt : rtrim s = s) (hsne : s ≠ []) :
    trimStr (v ++ s) = v ++ s := by
  have hs : rtrim s ≠ [] := by rw [hrt]; exact hsne
  unfold trimStr
  rw [rtrim_append hs, hrt]
  cases v with
  | nil => exact absurd rfl hv
  | cons c v' =>
    exact ltrim_cons_of_not_ws (isIdentChar_not_ws (hident c (List.mem_cons_self c v')))

/-! ### Lemmas about the `List[`-peeling loops -/

theorem peelStrict_wrap (T : Str) (n : Nat) :
    peelStrict (str "List[" ++ T ++ str "]") (n + 1) = peelStrict T n := by
  simp only [peelStrict]
  rw [List.append_assoc]
  rw [if_pos ⟨startsWith_append_self _ _,
    by rw [← List.append_assoc]; exact endsWith_append_self _ _⟩]
  rw [List.drop_left' (show (str "List[").length = 5 from rfl)]
  rw [show (str "]" : Str) = [']'] from rfl, List.dropLast_concat]

theorem peelStrict_bareList (n : Nat) : peelStrict (str "List") (n + 1) = none := by
  simp only [peelStrict]
  rw [if_neg (by decide)]
  simp

theorem peelStrict_stuck {t : Str} (h1 : ¬ (startsWith t (str "List[") ∧ endsWith t [']']))
    (h2 : t ≠ str "List") (n : Nat) : peelStrict t (n + 1) = none := by
  simp only [peelStrict]
  rw [if_neg h1, if_neg h2]

theorem peelStop_wrap (T : Str) (n : Nat) :
    peelStop (str "List[" ++ T ++ str "]") (n + 1) = peelStop T n := by
  simp only [peelStop]
  rw [List.append_assoc]
  rw [if_pos ⟨startsWith_append_self _ _,
    by rw [← List.append_assoc]; exact endsWith_append_self _ _⟩]
  rw [List.drop_left' (show (str "List[").length = 5 from rfl)]
  rw [show (str "]" : Str) = [']'] from rfl, List.dropLast_concat]

theorem peelStop_bareList (n : Nat) : peelStop (str "List") (n + 1) = none := by
  simp only [peelStop]
  rw [if_neg (by decide)]
  simp

theorem peelStop_stuck {t : Str} (h1 : ¬ (startsWith t (str "List[") ∧ endsWith t [']']))
    (h2 : t ≠ str "List") (n : Nat) : peelStop t (n + 1) = some t := by
  simp only [peelStop]
  rw [if_neg h1, if_neg h2]

/-! ### Lemmas about the static method table -/

theorem classifyReceiver_wrap (T : Str) :
    classifyReceiver (str "List[" ++ T ++ str "]") = (str "List", some T) := by
  unfold classifyReceiver
  rw [List.append_assoc]
  rw [if_pos ⟨startsWith_append_self _ _,
    by rw [← List.append_assoc]; exact endsWith_append_self _ _⟩]
  rw [List.drop_left' (show (str "List[").length = 5 from rfl)]
  rw [show (str "]" : Str) = [']'] from rfl, List.dropLast_concat]

theorem classifyReceiver_bareList : classifyReceiver (str "List") = (str "List", none) := by
  decide

theorem table_List_shape {recv e : Str}
    (hcl : classifyReceiver recv = (str "List", some e)) {m : Str}
    (hm : m ∈ shapePreservingListMethods) :
    infer_method_return_type_static recv m = some (str "List[" ++ e ++ str "]") := by
  have h1 : m ≠ str "show" := by fin_cases hm <;> decide
  have h2 : m ≠ str "hash" := by fin_cases hm <;> decide
  have h3 : m ≠ str "copy" := by fin_cases hm <;> decide
  simp only [infer_method_return_type_static]
  rw [if_neg h1, if_neg h2, if_neg h3, hcl]
  rw [if_pos rfl, if_pos hm]

theorem table_List_map {recv : Str} {e : Option Str}
    (hcl : classifyReceiver recv = (str "List", e)) {m : Str}
    (hm : m = str "map" ∨ m = str "flatMap") :
    infer_method_return_type_static recv m = some (str "List") := by
  rcases hm with rfl | rfl <;>
    (simp only [infer_method_return_type_static]
     rw [if_neg (by decide), if_neg (by decide), if_neg (by decide), hcl]
     rw [if_pos rfl, if_neg (by decide), if_neg (by decide), if_neg (by decide),
       if_neg (by decide), if_neg (by decide)]
     rw [if_pos (by decide)])

/-! ### Claim C3 -/

/-- C3: for an expression `identifier[...]...`, `infer_index_expr_type` fails
when the identifier is absent from the environment, otherwise counts every `[`
occurrence in the expression, peels exactly that many `List[` wrappers from
the bound type (failing on a bare `List` or a non-list label before the count
is exhausted) and returns a label only on a clean full peel. -/
theorem claim_C3 :
    (∀ (v s : Str) (env : Bindings), v ≠ [] → (∀ c ∈ v, isIdentChar c = true) →
      startsWith s ['['] = true → rtrim s = s →
      infer_index_expr_type (v ++ s) env =
        (match bfind env v with
         | none => none
         | some t => peelStrict t (countChar (v ++ s) '['))) ∧
    (∀ t : Str, peelStrict t 0 = some t) ∧
    (∀ (T : Str) (n : Nat),
      peelStrict (str "List[" ++ T ++ str "]") (n + 1) = peelStrict T n) ∧
    (∀ n : Nat, peelStrict (str "List") (n + 1) = none) ∧
    (∀ (t : Str) (n : Nat), ¬ (startsWith t (str "List[") ∧ endsWith t [']']) →
      t ≠ str "List" → peelStrict t (n + 1) = none) := by
  refine ⟨?_, fun t => rfl, peelStrict_wrap, peelStrict_bareList,
    fun t n h1 h2 => peelStrict_stuck h1 h2 n⟩
  intro v s env hv hident hstart hrt
  obtain ⟨s', rfl⟩ := startsWith_single hstart
  have ht : trimStr (v ++ '[' :: s') = v ++ '[' :: s' :=
    trimStr_append_ident hv hident hrt (by simp)
  have hnb : ∀ x ∈ v, x ≠ '[' := all_ne_of_ident hident (by decide)
  have hcont : containsChar (v ++ '[' :: s') '[' = true := by
    rw [containsChar_append]
    simp [containsChar]
  have hfind : findIdxChar (v ++ '[' :: s') '[' = some v.length :=
    findIdxChar_append_first hnb
  simp [infer_index_expr_type, ht, hcont, hfind, List.take_left, trimStr_ident hident, hv]

/-- Witness for C3: `xs[0]` with `xs : List[Int]` evaluates through the
first conjunct to `Int`. -/
theorem claim_C3_witness :
    infer_index_expr_type (str "xs" ++ str "[0]") [(str "xs", str "List[Int]")] =
      some (str "Int") := by
  have h := claim_C3.1 (str "xs") (str "[0]") [(str "xs", str "List[Int]")]
    (by decide) (by decide) (by decide) (by decide)
  rw [h]
  decide

/-! ### Claim C4 -/

/-- C4: the static method-return-type table maps every shape-preserving method
on `List[T]` to `List[T]` unchanged, for every element type `T`, while `map`
and `flatMap` on any list receiver (`List[T]` or bare `List`) yield the bare
`List` label. -/
theorem claim_C4 :
    (∀ (T m : Str), m ∈ shapePreservingListMethods →
      infer_method_return_type_static (str "List[" ++ T ++ str "]") m =
        some (str "List[" ++ T ++ str "]")) ∧
    (∀ (T m : Str), m = str "map" ∨ m = str "flatMap" →
      infer_method_return_type_static (str "List[" ++ T ++ str "]") m =
        some (str "List")) ∧
    (∀ m : Str, m = str "map" ∨ m = str "flatMap" →
      infer_method_return_type_static (str "List") m = some (str "List")) :=
  ⟨fun T _ hm => table_List_shape (classifyReceiver_wrap T) hm,
   fun T _ hm => table_List_map (classifyReceiver_wrap T) hm,
   fun _ hm => table_List_map classifyReceiver_bareList hm⟩

/-- Witness for C4: `filter` is shape-preserving and `List[Int].filter`
returns `List[Int]`. -/
theorem claim_C4_witness :
    str "filter" ∈ shapePreservingListMethods ∧
    infer_method_return_type_static (str "List[" ++ str "Int" ++ str "]") (str "filter") =
      some (str "List[" ++ str "Int" ++ str "]") :=
  ⟨by decide, claim_C4.1 (str "Int") (str "filter") (by decide)⟩

/-! ### Claim C1 -/

/-- C1 counterexample: on `[][0]` the base list-type inference succeeds (the
empty literal infers to the bare `List`), yet `infer_indexed_list_literal_type`
returns nothing — so it does not return nothing only when the base inference
fails. -/
theorem claim_C1_counterexample :
    infer_list_type (str "[]") = some (str "List") ∧
    infer_indexed_list_literal_type (str "[][0]") = none := by
  constructor
  · decide
  · decide

/-- C1 (amended): `infer_indexed_list_literal_type` computes the base list
type and peels one `List[` layer per counted index suffix; a peel step that
meets a non-list label stops and returns that label, a peel step that meets
the bare `List` label returns nothing, and the result is also nothing when
the base inference fails. -/
theorem claim_C1_amended :
    (infer_indexed_list_literal_type (str "[[\"a\",\"b\"]][0]") =
      some (str "List[String]")) ∧
    (infer_indexed_list_literal_type (str "[[\"a\",\"b\"]][0][0]") =
      some (str "String")) ∧
    (∀ (t : Str) (le : Nat), trimStr t = t → startsWith t ['['] = true →
      listEndIdx t = some le → startsWith (t.drop (le + 1)) ['['] = true →
      infer_indexed_list_literal_type t =
        (match infer_list_type (t.take (le + 1)) with
         | none => none
         | some base => peelStop base (countChar (t.drop (le + 1)) '['))) ∧
    (∀ (T : Str) (n : Nat),
      peelStop (str "List[" ++ T ++ str "]") (n + 1) = peelStop T n) ∧
    (∀ (t : Str) (n : Nat), ¬ (startsWith t (str "List[") ∧ endsWith t [']']) →
      t ≠ str "List" → peelStop t (n + 1) = some t) ∧
    (∀ n : Nat, peelStop (str "List") (n + 1) = none) := by
  refine ⟨by decide, by decide, ?_, peelStop_wrap,
    fun t n h1 h2 => peelStop_stuck h1 h2 n, peelStop_bareList⟩
  intro t le htrim hstart hle hafter
  obtain ⟨r, hr⟩ := startsWith_single hafter
  have hn : countChar (t.drop (le + 1)) '[' ≠ 0 := by
    rw [hr]
    simp [countChar]
  simp [infer_indexed_list_literal_type, htrim, hstart, hle, hafter, hn]

/-- Witness for C1: a peel step on the non-list label `Int` stops and returns
the label itself. -/
theorem claim_C1_witness : peelStop (str "Int") 1 = some (str "Int") :=
  claim_C1_amended.2.2.2.2.1 (str "Int") 0 (by decide) (by decide)

/-! ### Claim C2 -/

theorem startsWith_cons_ne {a : Char} {l : Str} {c : Char} {p : Str} (h : a ≠ c) :
    startsWith (a :: l) (c :: p) = false := by
  simp [startsWith, h]

theorem ne_of_upper {a : Char} (h : a.isUpper = true) {d : Char}
    (hd : d.isUpper = false) : a ≠ d := by
  rintro rfl
  rw [h] at hd
  cases hd

theorem upper_not_digit {c : Char} (h : c.isUpper = true) : c.isDigit = false := by
  have h' : (65 : UInt32) ≤ c.val ∧ c.val ≤ (90 : UInt32) := by
    simpa [Char.isUpper] using h
  cases hd : c.isDigit with
  | false => rfl
  | true =>
    exfalso
    have h2 : (48 : UInt32) ≤ c.val ∧ c.val ≤ (57 : UInt32) := by
      simpa [Char.isDigit] using hd
    have a1 : (65 : UInt32).toBitVec.toNat ≤ c.val.toBitVec.toNat := by
      have h3 := h'.1
      rw [UInt32.le_def, BitVec.le_def] at h3
      exact h3
    have a2 : c.val.toBitVec.toNat ≤ (57 : UInt32).toBitVec.toNat := by
      have h3 := h2.2
      rw [UInt32.le_def, BitVec.le_def] at h3
      exact h3
    have e1 : (65 : UInt32).toBitVec.toNat = 65 := by decide
    have e2 : (57 : UInt32).toBitVec.toNat = 57 := by decide
    omega

/-- C2 counterexample: a bare capitalised identifier with no engine does not
resolve to itself — `infer_rhs_type "Foo"` with no engine yields nothing, not
the nominal label `Foo`. -/
theorem claim_C2_counterexample :
    infer_rhs_type (str "Foo") none [] = none ∧
    infer_rhs_type (str "Foo") none [] ≠ some (str "Foo") := by
  constructor
  · decide
  · decide

/-- C2 (amended): for a trimmed expression starting with an uppercase letter,
with no engine (or an engine reporting no constructor owner and no matching
declared type), `infer_rhs_type` returns the leading identifier as a nominal
label only when the identifier is followed by a parenthesised argument list;
a bare identifier reference falls through and yields nothing. -/
theorem claim_C2_amended :
    (∀ (name rest : Str) (env : Bindings), name ≠ [] →
      (∀ c ∈ name, isIdentChar c = true) → (name.headD ' ').isUpper = true →
      startsWith rest ['('] = true → rtrim rest = rest →
      (∀ c ∈ rest, c ≠ '.') → (∀ c ∈ rest, c ≠ '[') →
      infer_rhs_type (name ++ rest) none env = some name) ∧
    (∀ (name : Str) (env : Bindings), name ≠ [] →
      (∀ c ∈ name, isIdentChar c = true) → (name.headD ' ').isUpper = true →
      infer_rhs_type name none env = none) ∧
    infer_rhs_type (str "Foo") (some emptyEngine) [] = none ∧
    infer_rhs_type (str "Foo(1)") (some emptyEngine) [] = some (str "Foo") := by
  refine ⟨?_, ?_, by decide, by decide⟩
  · intro name rest env hne hid hup hpr hrt hnd hnb
    obtain ⟨r0, rfl⟩ := startsWith_single hpr
    obtain ⟨c, n', rfl⟩ : ∃ c n', name = c :: n' := by
      cases name with
      | nil => exact absurd rfl hne
      | cons c n' => exact ⟨c, n', rfl⟩
    have hup' : c.isUpper = true := hup
    have ht : trimStr (c :: (n' ++ '(' :: r0)) = c :: (n' ++ '(' :: r0) :=
      trimStr_append_ident hne hid hrt (by simp)
    have hdot : containsChar (c :: (n' ++ '(' :: r0)) '.' = false := by
      refine containsChar_eq_false ?_
      intro x hx
      have h4 : x = c ∨ x ∈ n' ∨ x = '(' ∨ x ∈ r0 := by simpa using hx
      rcases h4 with rfl | h | rfl | h
      · exact all_ne_of_ident hid (by decide) x (List.mem_cons_self x n')
      · exact all_ne_of_ident hid (by decide) x (List.mem_cons_of_mem c h)
      · decide
      · exact hnd x (List.mem_cons_of_mem '(' h)
    have hbr : containsChar (c :: (n' ++ '(' :: r0)) '[' = false := by
      refine containsChar_eq_false ?_
      intro x hx
      have h4 : x = c ∨ x ∈ n' ∨ x = '(' ∨ x ∈ r0 := by simpa using hx
      rcases h4 with rfl | h | rfl | h
      · exact all_ne_of_ident hid (by decide) x (List.mem_cons_self x n')
      · exact all_ne_of_ident hid (by decide) x (List.mem_cons_of_mem c h)
      · decide
      · exact hnb x (List.mem_cons_of_mem '(' h)
    have htw : List.takeWhile isIdentChar (c :: (n' ++ '(' :: r0)) = c :: n' :=
      takeWhile_append_stop hid (by decide)
    have hdrop : List.drop (n'.length + 1) (c :: (n' ++ '(' :: r0)) = '(' :: r0 :=
      List.drop_left (c :: n') ('(' :: r0)
    have hq : startsWith (c :: (n' ++ '(' :: r0)) ['"'] = false :=
      startsWith_cons_ne (ne_of_upper hup' (by decide))
    have hlb : startsWith (c :: (n' ++ '(' :: r0)) ['['] = false :=
      startsWith_cons_ne (ne_of_upper hup' (by decide))
    have hmp : startsWith (c :: (n' ++ '(' :: r0)) (str "%\x7b") = false :=
      startsWith_cons_ne (ne_of_upper hup' (by decide))
    have hst : startsWith (c :: (n' ++ '(' :: r0)) (str "#\x7b") = false :=
      startsWith_cons_ne (ne_of_upper hup' (by decide))
    have hpa : startsWith (c :: (n' ++ '(' :: r0)) ['('] = false :=
      startsWith_cons_ne (ne_of_upper hup' (by decide))
    have hlt : ltrim ('(' :: r0) = '(' :: r0 :=
      ltrim_cons_of_not_ws (by decide)
    have hcon : startsWith ('(' :: r0) ['('] = true := by
      simp [startsWith, startsWith_nil]
    simp [infer_rhs_type, ht, hdot, hbr, htw, hdrop, hq, hlb, hmp, hst, hpa,
      hup', hlt, hcon]
  · intro name env hne hid hup
    obtain ⟨c, n', rfl⟩ : ∃ c n', name = c :: n' := by
      cases name with
      | nil => exact absurd rfl hne
      | cons c n' => exact ⟨c, n', rfl⟩
    have hup' : c.isUpper = true := hup
    have ht : trimStr (c :: n') = c :: n' := trimStr_ident hid
    have hdot : containsChar (c :: n') '.' = false :=
      containsChar_eq_false (all_ne_of_ident hid (by decide))
    have hbr : containsChar (c :: n') '[' = false :=
      containsChar_eq_false (all_ne_of_ident hid (by decide))
    have hpar : containsChar (c :: n') '(' = false :=
      containsChar_eq_false (all_ne_of_ident hid (by decide))
    have htw : List.takeWhile isIdentChar (c :: n') = c :: n' := takeWhile_all hid
    have hq : startsWith (c :: n') ['"'] = false :=
      startsWith_cons_ne (ne_of_upper hup' (by decide))
    have hlb : startsWith (c :: n') ['['] = false :=
      startsWith_cons_ne (ne_of_upper hup' (by decide))
    have hmp : startsWith (c :: n') (str "%\x7b") = false :=
      startsWith_cons_ne (ne_of_upper hup' (by decide))
    have hst : startsWith (c :: n') (str "#\x7b") = false :=
      startsWith_cons_ne (ne_of_upper hup' (by decide))
    have hpa : startsWith (c :: n') ['('] = false :=
      startsWith_cons_ne (ne_of_upper hup' (by decide))
    have hdig : c.isDigit = false := upper_not_digit hup'
    have hdash : ¬ (c = '-') := ne_of_upper hup' (by decide)
    have hfp : findIdxChar (c :: n') '(' = none :=
      findIdxChar_eq_none (all_ne_of_ident hid (by decide))
    have h0 : ltrim ([] : Str) = [] := rfl
    have hsw0 : startsWith ([] : Str) ['('] = false := rfl
    simp [infer_rhs_type, ht, hdot, hbr, hpar, htw, hq, hlb, hmp, hst, hpa,
      hup', hdig, hdash, hfp, h0, hsw0]

/-- Witness for C2: the call form `Foo(1)` with no engine resolves to the
nominal label `Foo` through the first conjunct. -/
theorem claim_C2_witness :
    infer_rhs_type (str "Foo" ++ str "(1)") none [] = some (str "Foo") :=
  claim_C2_amended.1 (str "Foo") (str "(1)") [] (by decide) (by decide) (by decide)
    (by decide) (by decide) (by decide) (by decide)

/-! ### Claim C6 -/

/-- C6 counterexample: `foo` has signature `a -> a` (single lowercase return,
the generic placeholder) and the first argument `zzz` of `foo(zzz)` is
uninferable, yet `infer_rhs_type` still answers — with the placeholder `a`
itself rather than the (non-existent) inferred first-argument type. -/
theorem claim_C6_counterexample :
    infer_first_arg_type (str "(zzz)") [] = none ∧
    infer_rhs_type (str "foo(zzz)") (some sigEngine) [] = some (str "a") := by
  constructor
  · decide
  · decide

/-- C6 (amended): a parenthesised call whose head resolves through the
engine's function-signature lookup takes the text after the last `->` as its
type; when that return type is a single lowercase character, the inferred type
of the first argument is substituted when that inference succeeds, and the
placeholder itself is returned when it fails. -/
theorem claim_C6_amended :
    (∀ (args : Str) (env : Bindings), startsWith args ['('] = true →
      rtrim args = args → (∀ c ∈ args, c ≠ '.') → (∀ c ∈ args, c ≠ '[') →
      infer_rhs_type (str "foo" ++ args) (some sigEngine) env =
        some ((infer_first_arg_type args env).getD (str "a"))) ∧
    infer_rhs_type (str "bar(zzz)") (some sigEngine) [] = some (str "Int") := by
  refine ⟨?_, by decide⟩
  intro args env hpr hrt hnd hnb
  obtain ⟨a0, rfl⟩ := startsWith_single hpr
  have e : (str "foo" : Str) = ['f', 'o', 'o'] := rfl
  rw [e]
  have ht : trimStr ('f' :: 'o' :: 'o' :: '(' :: a0) = 'f' :: 'o' :: 'o' :: '(' :: a0 :=
    trimStr_append_ident (v := ['f', 'o', 'o']) (by decide) (by decide) hrt (by simp)
  have hca : containsChar a0 '.' = false :=
    containsChar_eq_false fun x hx => hnd x (List.mem_cons_of_mem '(' hx)
  have hcb : containsChar a0 '[' = false :=
    containsChar_eq_false fun x hx => hnb x (List.mem_cons_of_mem '(' hx)
  have hdot : containsChar ('f' :: 'o' :: 'o' :: '(' :: a0) '.' = false := by
    simp [containsChar, hca]
  have hbr : containsChar ('f' :: 'o' :: 'o' :: '(' :: a0) '[' = false := by
    simp [containsChar, hcb]
  have htw : List.takeWhile isIdentChar ('f' :: 'o' :: 'o' :: '(' :: a0) = ['f', 'o', 'o'] :=
    @takeWhile_append_stop isIdentChar ['f', 'o', 'o'] '(' a0 (by decide) (by decide)
  have hfi : findIdxChar ('f' :: 'o' :: 'o' :: '(' :: a0) '(' = some 3 :=
    @findIdxChar_append_first ['f', 'o', 'o'] a0 '(' (by decide)
  have hq : startsWith ('f' :: 'o' :: 'o' :: '(' :: a0) ['"'] = false :=
    startsWith_cons_ne (by decide)
  have hlb : startsWith ('f' :: 'o' :: 'o' :: '(' :: a0) ['['] = false :=
    startsWith_cons_ne (by decide)
  have hmp : startsWith ('f' :: 'o' :: 'o' :: '(' :: a0) (str "%\x7b") = false :=
    startsWith_cons_ne (by decide)
  have hst : startsWith ('f' :: 'o' :: 'o' :: '(' :: a0) (str "#\x7b") = false :=
    startsWith_cons_ne (by decide)
  have hpa : startsWith ('f' :: 'o' :: 'o' :: '(' :: a0) ['('] = false :=
    startsWith_cons_ne (by decide)
  have hfu : ('f' : Char).isUpper = false := by decide
  have hfd : ('f' : Char).isDigit = false := by decide
  have hfdash : ¬ (('f' : Char) = '-') := by decide
  have htf : trimStr (['f', 'o', 'o'] : Str) = str "foo" := by decide
  have hrf : rfindStr (str "a -> a") (str "->") = some 2 := by decide
  have hret : trimStr (List.drop 4 (str "a -> a")) = str "a" := by decide
  have hlen : (str "a" : Str).length = 1 := by decide
  have hlow : (((str "a" : Str).head?).getD ' ').isLower = true := by decide
  simp [infer_rhs_type, ht, hdot, hbr, htw, hfi, hq, hlb, hmp, hst, hpa,
    hfu, hfd, hfdash, hca, hcb, htf, sigEngine, hrf, hret, hlen, hlow]
  cases hfa : infer_first_arg_type ('(' :: a0) env <;> simp [hfa]

/-- Witness for C6: with `zzz : String` bound, `foo(zzz)` substitutes the
first argument's type `String` for the placeholder return type. -/
theorem claim_C6_witness :
    infer_rhs_type (str "foo" ++ str "(zzz)") (some sigEngine)
      [(str "zzz", str "String")] = some (str "String") := by
  have h := claim_C6_amended.1 (str "(zzz)") [(str "zzz", str "String")]
    (by decide) (by decide) (by decide) (by decide)
  rw [h]
  decide

/-! ### Claim C9 -/

theorem startsWith_iff_append {l p : Str} (h : startsWith l p = true) :
    ∃ r, l = p ++ r := by
  induction p generalizing l with
  | nil => exact ⟨l, rfl⟩
  | cons b p ih =>
    cases l with
    | nil => cases h
    | cons a l' =>
      have hab : a = b ∧ startsWith l' p = true := by simpa [startsWith] using h
      obtain ⟨r, hr⟩ := ih hab.2
      exact ⟨r, by rw [hab.1, hr]; rfl⟩

/-- C9 counterexample: the label `List[Int]x` begins with `List` and is not of
the exact form `List[...]`, yet `infer_lambda_param_type_for_method` on `map`
yields nothing instead of the default element type `Int`. -/
theorem claim_C9_counterexample :
    infer_lambda_param_type_for_method (str "List[Int]x") (str "map") = none ∧
    infer_lambda_param_type_for_method (str "List[Int]x") (str "map") ≠
      some (str "Int") := by
  constructor
  · decide
  · decide

/-- C9 (amended): on an element-yielding method, a receiver label that begins
with `List` but not with `List[` (the bare `List` label and any nominal name
merely starting with `List`) defaults to the element type `Int`; a label that
begins with `List[` but does not end with `]` yields nothing. -/
theorem claim_C9_amended :
    (∀ (t m : Str), startsWith t (str "List") = true →
      startsWith t (str "List[") = false → m ∈ listElementMethods →
      infer_lambda_param_type_for_method t m = some (str "Int")) ∧
    (∀ (t m : Str), startsWith t (str "List[") = true → endsWith t [']'] = false →
      infer_lambda_param_type_for_method t m = none) := by
  constructor
  · intro t m h1 h2 hm
    obtain ⟨r, rfl⟩ := startsWith_iff_append h1
    have h2' : startsWith (str "List" ++ r) (str "List[") = false := h2
    have hpb : startsWith (str "List" ++ r) ['['] = false :=
      startsWith_cons_ne (by decide)
    simp [infer_lambda_param_type_for_method, startsWith_append_self, h2', hpb, hm]
  · intro t m h1 h2
    obtain ⟨r, rfl⟩ := startsWith_iff_append h1
    have hg : startsWith (str "List[" ++ r) (str "List") = true := by
      rw [show (str "List[" : Str) ++ r = str "List" ++ ('[' :: r) from rfl]
      exact startsWith_append_self _ _
    simp [infer_lambda_param_type_for_method, hg, h1, h2]

/-- Witness for C9: the nominal name `Listing` (which merely starts with
`List`) gets the default element type `Int` on `map`. -/
theorem claim_C9_witness :
    infer_lambda_param_type_for_method (str "Listing") (str "map") = some (str "Int") :=
  claim_C9_amended.1 (str "Listing") (str "map") (by decide) (by decide) (by decide)

/-! ### Claim C7 -/

theorem ne_of_bool_pred {p : Char → Bool} {c d : Char} (hc : p c = true)
    (hd : p d = false) : c ≠ d := by
  rintro rfl
  rw [hc] at hd
  cases hd

/-- The backward scan of `extract_receiver_expression` exhausts input made of
identifier/dot characters without triggering any stop condition. -/
theorem eraGo_all_ident {chars : Str}
    (h : ∀ c ∈ chars, (c.isAlphanum || c = '_' || c = '.') = true) :
    ∀ i, i ≤ chars.length → ∀ sc, eraGo chars i 0 false sc = none := by
  intro i
  induction i with
  | zero => intro _ sc; rfl
  | succ j ih =>
    intro hle sc
    have hj : j < chars.length := hle
    have hmem : chars.getD j ' ' ∈ chars := by
      rw [List.getD_eq_getElem?_getD, List.getElem?_eq_getElem hj]
      exact List.getElem_mem hj
    have hc := h _ hmem
    have n1 : chars.getD j ' ' ≠ '"' :=
      ne_of_bool_pred (p := fun x => (x.isAlphanum || x = '_' || x = '.')) hc (by decide)
    have n2 : chars.getD j ' ' ≠ '\'' :=
      ne_of_bool_pred (p := fun x => (x.isAlphanum || x = '_' || x = '.')) hc (by decide)
    have n3 : chars.getD j ' ' ≠ ')' :=
      ne_of_bool_pred (p := fun x => (x.isAlphanum || x = '_' || x = '.')) hc (by decide)
    have n4 : chars.getD j ' ' ≠ ']' :=
      ne_of_bool_pred (p := fun x => (x.isAlphanum || x = '_' || x = '.')) hc (by decide)
    have n5 : chars.getD j ' ' ≠ '\x7d' :=
      ne_of_bool_pred (p := fun x => (x.isAlphanum || x = '_' || x = '.')) hc (by decide)
    have n6 : chars.getD j ' ' ≠ '(' :=
      ne_of_bool_pred (p := fun x => (x.isAlphanum || x = '_' || x = '.')) hc (by decide)
    have n7 : chars.getD j ' ' ≠ '[' :=
      ne_of_bool_pred (p := fun x => (x.isAlphanum || x = '_' || x = '.')) hc (by decide)
    have n8 : chars.getD j ' ' ≠ '\x7b' :=
      ne_of_bool_pred (p := fun x => (x.isAlphanum || x = '_' || x = '.')) hc (by decide)
    have hpos : ((chars.getD j ' ').isAlphanum = true ∨ chars.getD j ' ' = '_') ∨
        chars.getD j ' ' = '.' := by
      simpa using hc
    simp only [eraGo]
    rw [if_neg (by simp), if_neg (by rintro (h' | h') <;> [exact n1 h'; exact n2 h']),
      if_neg (by rintro (h' | h' | h') <;> [exact n3 h'; exact n4 h'; exact n5 h']),
      if_neg (by rintro (h' | h' | h') <;> [exact n6 h'; exact n7 h'; exact n8 h']),
      if_neg (by
        rintro ⟨-, hno⟩
        rcases hpos with (h'' | h'') | h''
        · exact hno (Or.inl h'')
        · exact hno (Or.inr (Or.inl h''))
        · exact hno (Or.inr (Or.inr h'')))]
    exact ih (Nat.le_of_lt hj) sc

/-- Whenever the backward scan of `extract_receiver_expression` stops at some
index `k` instead of exhausting the input, the stop was one of the source's
two stop conditions: either the character at `k` is an opening bracket (the
scan returns the text from that opener), or `k` lies right after a
non-identifier/non-dot character (the scan returns the text after it). -/
theorem eraGo_some_spec {chars : Str} :
    ∀ (i : Nat) (depth : Int) (inString : Bool) (sc : Char) (k : Nat),
      i ≤ chars.length → eraGo chars i depth inString sc = some k →
      (k < chars.length ∧
        (chars.getD k ' ' = '(' ∨ chars.getD k ' ' = '[' ∨ chars.getD k ' ' = '\x7b')) ∨
      (1 ≤ k ∧ ¬ ((chars.getD (k - 1) ' ').isAlphanum = true ∨
        chars.getD (k - 1) ' ' = '_' ∨ chars.getD (k - 1) ' ' = '.')) := by
  intro i
  induction i with
  | zero =>
    intro depth inString sc k _ h
    cases h
  | succ j ih =>
    intro depth inString sc k hle h
    have hlt : j < chars.length := hle
    simp only [eraGo] at h
    by_cases h1 : inString = true
    · rw [if_pos h1] at h
      by_cases h2 : chars.getD j ' ' = sc ∧ countBackslashes chars j % 2 = 0
      · rw [if_pos h2] at h
        exact ih _ _ _ _ (Nat.le_of_lt hlt) h
      · rw [if_neg h2] at h
        exact ih _ _ _ _ (Nat.le_of_lt hlt) h
    · rw [if_neg h1] at h
      by_cases h2 : chars.getD j ' ' = '"' ∨ chars.getD j ' ' = '\''
      · rw [if_pos h2] at h
        exact ih _ _ _ _ (Nat.le_of_lt hlt) h
      · rw [if_neg h2] at h
        by_cases h3 : chars.getD j ' ' = ')' ∨ chars.getD j ' ' = ']' ∨
            chars.getD j ' ' = '\x7d'
        · rw [if_pos h3] at h
          exact ih _ _ _ _ (Nat.le_of_lt hlt) h
        · rw [if_neg h3] at h
          by_cases h4 : chars.getD j ' ' = '(' ∨ chars.getD j ' ' = '[' ∨
              chars.getD j ' ' = '\x7b'
          · rw [if_pos h4] at h
            by_cases h5 : depth > 0
            · rw [if_pos h5] at h
              exact ih _ _ _ _ (Nat.le_of_lt hlt) h
            · rw [if_neg h5] at h
              obtain rfl : j = k := Option.some.inj h
              exact Or.inl ⟨hlt, h4⟩
          · rw [if_neg h4] at h
            by_cases h6 : depth = 0 ∧
                ¬ ((chars.getD j ' ').isAlphanum = true ∨ chars.getD j ' ' = '_' ∨
                  chars.getD j ' ' = '.')
            · rw [if_pos h6] at h
              obtain rfl : j + 1 = k := Option.some.inj h
              refine Or.inr ⟨Nat.le_add_left 1 j, ?_⟩
              simpa using h6.2
            · rw [if_neg h6] at h
              exact ih _ _ _ _ (Nat.le_of_lt hlt) h

/-- C7: for every input text, `extract_receiver_expression` returns the whole
text when the backward scan exhausts the input without triggering a stop
condition, and otherwise returns exactly the suffix at the stop index, which
is either an opener met at depth zero or the position right after a depth-zero
non-identifier/non-dot character outside a string; in particular every
identifier/dot-only text is returned whole and
`extract_receiver_expression "a + [1,2,3]"` is exactly `"[1,2,3]"`. -/
theorem claim_C7 :
    (∀ text : Str, eraGo text text.length 0 false '"' = none →
      extract_receiver_expression text = text) ∧
    (∀ (text : Str) (k : Nat), eraGo text text.length 0 false '"' = some k →
      extract_receiver_expression text = text.drop k ∧
      ((k < text.length ∧
        (text.getD k ' ' = '(' ∨ text.getD k ' ' = '[' ∨ text.getD k ' ' = '\x7b')) ∨
       (1 ≤ k ∧ ¬ ((text.getD (k - 1) ' ').isAlphanum = true ∨
         text.getD (k - 1) ' ' = '_' ∨ text.getD (k - 1) ' ' = '.')))) ∧
    (∀ text : Str, (∀ c ∈ text, (c.isAlphanum || c = '_' || c = '.') = true) →
      extract_receiver_expression text = text) ∧
    extract_receiver_expression (str "a + [1,2,3]") = str "[1,2,3]" := by
  refine ⟨?_, ?_, ?_, by decide⟩
  · intro text h
    unfold extract_receiver_expression
    rw [h]
  · intro text k h
    constructor
    · unfold extract_receiver_expression
      rw [h]
    · exact eraGo_some_spec text.length 0 false '"' k (Nat.le_refl _) h
  · intro text h
    unfold extract_receiver_expression
    rw [eraGo_all_ident h text.length (Nat.le_refl _) '"']

/-- Witness for C7: the stop-characterisation conjunct at the concrete input
`"a + [1,2,3]"`, whose scan stops at index 4, and the exhaustion conjunct at
the identifier `abc`. -/
theorem claim_C7_witness :
    extract_receiver_expression (str "a + [1,2,3]") = (str "a + [1,2,3]").drop 4 ∧
    extract_receiver_expression (str "abc") = str "abc" :=
  ⟨(claim_C7.2.1 (str "a + [1,2,3]") 4 (by decide)).1,
   claim_C7.2.2.1 (str "abc") (by decide)⟩

/-! ### Claim C10 -/

theorem endsWith_single_iff {l : Str} {c : Char} :
    endsWith l [c] = true ↔ l.getLast? = some c := by
  unfold endsWith
  cases hr : l.reverse with
  | nil =>
    have : l = [] := List.reverse_eq_nil_iff.mp hr
    subst this
    simp [startsWith]
  | cons a r =>
    have hl : l.getLast? = some a := by
      rw [← List.head?_reverse, hr]
      rfl
    simp [startsWith, startsWith_nil, hl]

/-- C10: when the prefix contains an `=` and the character immediately before
the last `=` is none of `!`, `=`, `<`, `>`, the expression selected for
inference is only the trimmed text after that last `=`; otherwise the whole
prefix is used unchanged. -/
theorem claim_C10 :
    ∀ (s₁ s₂ : Str), (∀ c ∈ s₂, c ≠ '=') →
      ((s₁.getLast? ≠ some '!' ∧ s₁.getLast? ≠ some '=' ∧ s₁.getLast? ≠ some '<' ∧
          s₁.getLast? ≠ some '>') →
        exprToInfer (s₁ ++ '=' :: s₂) = trimStr s₂) ∧
      ((s₁.getLast? = some '!' ∨ s₁.getLast? = some '=' ∨ s₁.getLast? = some '<' ∨
          s₁.getLast? = some '>') →
        exprToInfer (s₁ ++ '=' :: s₂) = s₁ ++ '=' :: s₂) := by
  intro s₁ s₂ h2
  have hrf : rfindChar (s₁ ++ '=' :: s₂) '=' = some s₁.length := rfindChar_append_last h2
  have htk : (s₁ ++ '=' :: s₂).take s₁.length = s₁ := List.take_left _ _
  have hdr : (s₁ ++ '=' :: s₂).drop (s₁.length + 1) = s₂ := by
    rw [show s₁ ++ '=' :: s₂ = (s₁ ++ ['=']) ++ s₂ by simp]
    exact List.drop_left' (by simp)
  constructor
  · rintro ⟨h1, h2', h3, h4⟩
    simp only [exprToInfer, hrf, htk]
    rw [if_pos ⟨fun h => h1 (endsWith_single_iff.mp h),
      fun h => h2' (endsWith_single_iff.mp h), fun h => h3 (endsWith_single_iff.mp h),
      fun h => h4 (endsWith_single_iff.mp h)⟩]
    rw [hdr]
  · intro h
    simp only [exprToInfer, hrf, htk]
    rw [if_neg]
    rintro ⟨c1, c2, c3, c4⟩
    rcases h with h | h | h | h
    · exact c1 (endsWith_single_iff.mpr h)
    · exact c2 (endsWith_single_iff.mpr h)
    · exact c3 (endsWith_single_iff.mpr h)
    · exact c4 (endsWith_single_iff.mpr h)

/-- Witness for C10: `"x = y"` splits at the `=` and only `y` is inferred. -/
theorem claim_C10_witness : exprToInfer (str "x = y") = str "y" := by
  have e : (str "x = y" : Str) = str "x " ++ '=' :: str " y" := by decide
  have h := (claim_C10 (str "x ") (str " y") (by decide)).1 (by decide)
  rw [e, h]
  decide

/-! ### Claim C8 -/

/-- C8: a line reading `end` clears only the trait-implementation context and
leaves the binding map unchanged, for every prior state; consequently a `self`
binding made inside a trait block survives past the block's `end` (concrete
document: `self` is still bound to `Person` after `end`, and later lines keep
extending the same map). -/
theorem claim_C8 :
    (∀ (engine : Option ReplEngine) (st : ScanState) (isCurrent : Bool),
      processLine engine st (str "end") isCurrent = ⟨st.bindings, none⟩) ∧
    bfind (extract_local_bindings
      (str "Person: Show\n  show(self) = \"p\"\nend\nx = 1") 10 none) (str "self") =
      some (str "Person") ∧
    bfind (extract_local_bindings
      (str "Person: Show\n  show(self) = \"p\"\nend\nx = 1") 10 none) (str "x") =
      some (str "Int") := by
  refine ⟨?_, by decide, by decide⟩
  intro engine st isCurrent
  have h1 : trimStr (str "end") = str "end" := by decide
  have h2 : containsChar (str "end") '=' = false := by decide
  have h3 : startsWith (str "end") ['#'] = false := by decide
  have h4 : (str "end" : Str) ≠ [] := by decide
  simp [processLine, h1, h2, h3, h4]

/-! ### Claim C5 -/

theorem ltrim_ws_cons {c : Char} {l : Str} (h : c.isWhitespace = true) :
    ltrim (c :: l) = ltrim l := by
  simp [ltrim, List.dropWhile_cons, h]

theorem rtrim_append_ws {l : Str} {c : Char} (h : c.isWhitespace = true) :
    rtrim (l ++ [c]) = rtrim l := by
  unfold rtrim ltrim
  rw [List.reverse_append]
  simp [List.dropWhile_cons, h]

theorem ltrim_idem (l : Str) : ltrim (ltrim l) = ltrim l := by
  induction l with
  | nil => rfl
  | cons a t ih =>
    by_cases h : a.isWhitespace = true
    · rw [ltrim_ws_cons h, ih]
    · rw [ltrim_cons_of_not_ws (Bool.eq_false_iff.mpr h),
        ltrim_cons_of_not_ws (Bool.eq_false_iff.mpr h)]

theorem rtrim_idem (l : Str) : rtrim (rtrim l) = rtrim l := by
  unfold rtrim
  rw [List.reverse_reverse, ltrim_idem]

theorem rtrim_ne_nil_of_trim {l : Str} (h : trimStr l ≠ []) : rtrim l ≠ [] := by
  intro he
  apply h
  unfold trimStr
  rw [he]
  rfl

/-- C5: a processed assignment line with an explicit `: Type` annotation and a
lowercase identifier on the left binds the name to the annotated type verbatim
for every right-hand side, every engine and every prior state (the RHS is
never consulted); without an annotation the binding is recorded exactly when
RHS inference succeeds. -/
theorem claim_C5 :
    (∀ (engine : Option ReplEngine) (st : ScanState) (ty rhs : Str), ty ≠ [] →
      (∀ c ∈ ty, c ≠ '=') → ltrim ty = ty → rtrim ty = ty → trimStr rhs ≠ [] →
      bfind (processLine engine st (str "x: " ++ ty ++ str " = " ++ rhs) false).bindings
        (str "x") = some ty) ∧
    (∀ (engine : Option ReplEngine) (b : Bindings) (rhs : Str), trimStr rhs ≠ [] →
      processLine engine ⟨b, none⟩ (str "y = " ++ rhs) false =
        ⟨(match infer_rhs_type (trimStr rhs) engine b with
           | some t => binsert b (str "y") t
           | none => b), none⟩) ∧
    bfind (extract_local_bindings (str "x: Int = someUnknownCall()") 10 none)
      (str "x") = some (str "Int") ∧
    bfind (extract_local_bindings (str "y = someUnknownCall()") 10 none)
      (str "y") = none := by
  refine ⟨?_, ?_, by decide, by decide⟩
  · intro engine st ty rhs hty hne hlt hrt hrhs
    have hR : rtrim rhs ≠ [] := rtrim_ne_nil_of_trim hrhs
    have htrim : trimStr (str "x: " ++ ty ++ str " = " ++ rhs) =
        str "x: " ++ ty ++ str " = " ++ rtrim rhs := by
      unfold trimStr
      rw [rtrim_append hR]
      exact ltrim_cons_of_not_ws (by decide)
    have hG : str "x: " ++ ty ++ str " = " ++ rtrim rhs =
        'x' :: ':' :: ' ' :: (ty ++ ' ' :: '=' :: ' ' :: rtrim rhs) := by
      rw [show (str "x: " : Str) = ['x', ':', ' '] from rfl,
        show (str " = " : Str) = [' ', '=', ' '] from rfl]
      simp
    have hlen : ('x' :: ':' :: ' ' :: (ty ++ [' '])).length = ty.length + 4 := by
      simp
    have hmem : ∀ x ∈ ('x' :: ':' :: ' ' :: (ty ++ [' '])), x ≠ '=' := by
      intro x hx
      simp at hx
      rcases hx with rfl | rfl | rfl | hx | rfl
      · decide
      · decide
      · decide
      · exact hne x hx
      · decide
    have hcty : containsChar ty '=' = false := containsChar_eq_false hne
    have f1 : findIdxChar ('x' :: ':' :: ' ' :: (ty ++ ' ' :: '=' :: ' ' :: rtrim rhs)) '='
        = some (ty.length + 4) := by
      have h0 := @findIdxChar_append_first ('x' :: ':' :: ' ' :: (ty ++ [' ']))
        (' ' :: rtrim rhs) '=' hmem
      rw [hlen] at h0
      rw [show ('x' :: ':' :: ' ' :: (ty ++ [' '])) ++ '=' :: ' ' :: rtrim rhs =
        'x' :: ':' :: ' ' :: (ty ++ ' ' :: '=' :: ' ' :: rtrim rhs) from by simp] at h0
      exact h0
    have hcont : containsChar ('x' :: ':' :: ' ' :: (ty ++ ' ' :: '=' :: ' ' :: rtrim rhs))
        '=' = true := by
      simp [containsChar, containsChar_append, hcty]
    have htake : List.take (ty.length + 4)
        ('x' :: ':' :: ' ' :: (ty ++ ' ' :: '=' :: ' ' :: rtrim rhs)) =
        'x' :: ':' :: ' ' :: (ty ++ [' ']) := by
      have h0 := @List.take_left' _ ('x' :: ':' :: ' ' :: (ty ++ [' ']))
        ('=' :: ' ' :: rtrim rhs) _ hlen
      rw [show ('x' :: ':' :: ' ' :: (ty ++ [' '])) ++ '=' :: ' ' :: rtrim rhs =
        'x' :: ':' :: ' ' :: (ty ++ ' ' :: '=' :: ' ' :: rtrim rhs) from by simp] at h0
      exact h0
    have e1 : rtrim ('x' :: ':' :: ' ' :: (ty ++ [' '])) = 'x' :: ':' :: ' ' :: ty := by
      rw [show ('x' :: ':' :: ' ' :: (ty ++ [' ']) : Str) =
        ('x' :: ':' :: ' ' :: ty) ++ [' '] from by simp,
        rtrim_append_ws (by decide),
        show ('x' :: ':' :: ' ' :: ty : Str) = ['x', ':', ' '] ++ ty from rfl,
        rtrim_append (by rw [hrt]; exact hty), hrt]
    have hbe : trimStr ('x' :: ':' :: ' ' :: (ty ++ [' '])) = 'x' :: ':' :: ' ' :: ty := by
      unfold trimStr
      rw [e1]
      exact ltrim_cons_of_not_ws (by decide)
    have hcolon : findIdxChar ('x' :: ':' :: ' ' :: ty) ':' = some 1 := by
      simp [findIdxChar]
    have hvar : List.take 1 ('x' :: ':' :: ' ' :: ty) = ['x'] := rfl
    have hvx : trimStr (['x'] : Str) = str "x" := by decide
    have hdrop2 : List.drop (1 + 1) ('x' :: ':' :: ' ' :: ty) = ' ' :: ty := rfl
    have hexp : trimStr (' ' :: ty) = ty := by
      have e2 : rtrim (' ' :: ty) = ' ' :: ty := by
        rw [show (' ' :: ty : Str) = [' '] ++ ty from rfl,
          rtrim_append (by rw [hrt]; exact hty), hrt]
      unfold trimStr
      rw [e2, ltrim_ws_cons (by decide), hlt]
    have hlen2 : ty.length + 4 + 1 <
        ('x' :: ':' :: ' ' :: (ty ++ ' ' :: '=' :: ' ' :: rtrim rhs)).length := by
      simp only [List.length_cons, List.length_append]
      omega
    have hdropG : List.drop (ty.length + 4 + 1)
        ('x' :: ':' :: ' ' :: (ty ++ ' ' :: '=' :: ' ' :: rtrim rhs)) =
        ' ' :: rtrim rhs := by
      rw [show ('x' :: ':' :: ' ' :: (ty ++ ' ' :: '=' :: ' ' :: rtrim rhs) : Str) =
        ('x' :: ':' :: ' ' :: (ty ++ [' ', '='])) ++ ' ' :: rtrim rhs from by simp]
      refine List.drop_left' ?_
      simp only [List.length_cons, List.length_append, List.length_nil]
    have hnext : startsWith (' ' :: rtrim rhs) ['='] = false :=
      startsWith_cons_ne (by decide)
    have hhash : startsWith ('x' :: ':' :: ' ' :: (ty ++ ' ' :: '=' :: ' ' :: rtrim rhs))
        ['#'] = false := startsWith_cons_ne (by decide)
    have hmvar : startsWith ('x' :: ':' :: ' ' :: (ty ++ ' ' :: '=' :: ' ' :: rtrim rhs))
        (str "mvar ") = false := startsWith_cons_ne (by decide)
    have hth : traitHeaderType ('x' :: ':' :: ' ' :: (ty ++ ' ' :: '=' :: ' ' :: rtrim rhs))
        = none := by
      unfold traitHeaderType
      rw [if_pos hcont]
    simp only [processLine, htrim, hG]
    rw [if_neg (by simp [hhash]), if_neg (by simp [hcont]), hth]
    rw [if_neg (by simp), if_neg (by simp [hmvar])]
    simp only [assignStep, f1, htake, hbe]
    rw [if_pos ⟨hlen2, by rw [hdropG]; simp [hnext]⟩]
    simp only [hcolon, hvar, hdrop2, hvx]
    rw [if_pos ⟨by decide, by decide, by decide⟩]
    simp [binsert, bfind, hexp]
  · intro engine b rhs hrhs
    have hR : rtrim rhs ≠ [] := rtrim_ne_nil_of_trim hrhs
    have htrim : trimStr (str "y = " ++ rhs) = str "y = " ++ rtrim rhs := by
      unfold trimStr
      rw [rtrim_append hR]
      exact ltrim_cons_of_not_ws (by decide)
    have hG : str "y = " ++ rtrim rhs = 'y' :: ' ' :: '=' :: ' ' :: rtrim rhs := rfl
    have hcont : containsChar ('y' :: ' ' :: '=' :: ' ' :: rtrim rhs) '=' = true := by
      simp [containsChar]
    have f1 : findIdxChar ('y' :: ' ' :: '=' :: ' ' :: rtrim rhs) '=' = some 2 := by
      simp [findIdxChar]
    have hth : traitHeaderType ('y' :: ' ' :: '=' :: ' ' :: rtrim rhs) = none := by
      unfold traitHeaderType
      rw [if_pos hcont]
    have hhash : startsWith ('y' :: ' ' :: '=' :: ' ' :: rtrim rhs) ['#'] = false :=
      startsWith_cons_ne (by decide)
    have hmvar : startsWith ('y' :: ' ' :: '=' :: ' ' :: rtrim rhs) (str "mvar ") = false :=
      startsWith_cons_ne (by decide)
    have htake : List.take 2 ('y' :: ' ' :: '=' :: ' ' :: rtrim rhs) = ['y', ' '] := rfl
    have hbe : trimStr (['y', ' '] : Str) = str "y" := by decide
    have hlen2 : 2 + 1 < ('y' :: ' ' :: '=' :: ' ' :: rtrim rhs).length := by
      simp
    have hdropG : List.drop (2 + 1) ('y' :: ' ' :: '=' :: ' ' :: rtrim rhs) =
        ' ' :: rtrim rhs := rfl
    have hnext : startsWith (' ' :: rtrim rhs) ['='] = false :=
      startsWith_cons_ne (by decide)
    have hcolon : findIdxChar (str "y") ':' = none := by decide
    have hafter : trimStr (' ' :: rtrim rhs) = trimStr rhs := by
      have e2 : rtrim (' ' :: rtrim rhs) = ' ' :: rtrim rhs := by
        rw [show (' ' :: rtrim rhs : Str) = [' '] ++ rtrim rhs from rfl,
          rtrim_append (by rw [rtrim_idem]; exact hR), rtrim_idem]
      rw [show trimStr (' ' :: rtrim rhs) = ltrim (rtrim (' ' :: rtrim rhs)) from rfl,
        e2, ltrim_ws_cons (by decide)]
      rfl
    simp only [processLine, htrim, hG]
    rw [if_neg (by simp [hhash]), if_neg (by simp [hcont]), hth]
    simp only [selfStep]
    simp only [Bool.false_eq_true, if_false, hmvar]
    simp only [assignStep, f1, htake, hbe, hcolon]
    rw [if_pos ⟨hlen2, by rw [hdropG]; simp [hnext]⟩]
    rw [if_pos (by refine ⟨by decide, by decide, by decide⟩)]
    rw [hdropG, hafter]

/-- Witness for C5: the annotated line `x: Int = 1` binds `x` to `Int`
through the first conjunct, at the empty prior state with no engine. -/
theorem claim_C5_witness :
    bfind (processLine none ⟨[], none⟩ (str "x: " ++ str "Int" ++ str " = " ++ str "1")
      false).bindings (str "x") = some (str "Int") :=
  claim_C5.1 none ⟨[], none⟩ (str "Int") (str "1") (by decide) (by decide) (by decide)
    (by decide) (by decide)
